import Mathlib

/-!
Verification of the cli-video-downloader specification against a shallow
embedding of its Rust source.  Each section embeds the data model and the
functions of one source file (named in the doc comments), translated
directly from the code; `...Spec`-suffixed definitions instead follow the
specification text and are compared against the code-derived definitions.
Machine integers are modelled as `Nat`; `f64` progress values are modelled
as `Rat` (the claims at issue concern ranges and exact small fractions, not
rounding); fallible code returns `Except`.
-/

namespace VideoDl

/-! ## String utilities (ASCII-level models of the Rust `str` methods used) -/

/-- Model of Rust `u8::to_ascii_lowercase` lifted to `Char`: maps only
the characters A-Z to a-z, leaving everything else unchanged. -/
def asciiLowerChar (c : Char) : Char :=
  if 65 ≤ c.toNat ∧ c.toNat ≤ 90 then Char.ofNat (c.toNat + 32) else c

/-- ASCII lowercasing of a string, character by character. -/
def asciiLower (s : String) : String :=
  String.mk (s.toList.map asciiLowerChar)

/-- Model of Rust `str::eq_ignore_ascii_case`. -/
def eqIgnoreAsciiCase (a b : String) : Bool :=
  asciiLower a == asciiLower b

/-- Checks whether `pat` occurs as a contiguous run at the head of `l`. -/
def leadsWith : List Char → List Char → Bool
  | [], _ => true
  | _ :: _, [] => false
  | p :: ps, c :: cs => p == c && leadsWith ps cs

/-- Checks whether `pat` occurs as a contiguous run anywhere in `l`
(model of Rust `str::contains` on string patterns). -/
def hasSub (pat : List Char) : List Char → Bool
  | [] => leadsWith pat []
  | c :: cs => leadsWith pat (c :: cs) || hasSub pat cs

/-- Model of Rust `str::contains(&str)`. -/
def containsStr (line pat : String) : Bool :=
  hasSub pat.toList line.toList

/-- Whitespace predicate for the ASCII whitespace the format tables emit. -/
def isWsChar (c : Char) : Bool :=
  c == ' ' || c == Char.ofNat 9 || c == Char.ofNat 10 || c == Char.ofNat 13

/-- Splits a character list on whitespace, discarding empty pieces
(model of Rust `str::split_whitespace`). `cur` accumulates the current
word in reverse. -/
def wsSplitAux : List Char → List Char → List String
  | cur, [] => if cur.isEmpty then [] else [String.mk cur.reverse]
  | cur, c :: cs =>
    if isWsChar c then
      if cur.isEmpty then wsSplitAux [] cs
      else String.mk cur.reverse :: wsSplitAux [] cs
    else wsSplitAux (c :: cur) cs

/-- Model of Rust `str::split_whitespace().collect::<Vec<_>>()`. -/
def splitWhitespace (s : String) : List String :=
  wsSplitAux [] s.toList

/-- Model of Rust `str::trim().is_empty()`: the line holds only whitespace. -/
def isBlank (s : String) : Bool :=
  s.toList.all isWsChar

/-- Model of Rust `str::starts_with(&str)`. -/
def strLeadsWith (s pat : String) : Bool :=
  leadsWith pat.toList s.toList

/-! ## Data model (`src/lib.rs`) -/

/-- The `Quality` enum of `src/lib.rs`. -/
inductive Quality where
  | Low
  | Medium
  | High
  | HD720
  | HD1080
  | UHD2160
  | Custom (s : String)
  deriving DecidableEq, Repr

/-- The `Display` impl for `Quality` in `src/lib.rs`. -/
def Quality.display : Quality → String
  | .Low => "low"
  | .Medium => "medium"
  | .High => "high"
  | .HD720 => "720p"
  | .HD1080 => "1080p"
  | .UHD2160 => "2160p"
  | .Custom s => s

/-- The `Format` (container) enum of `src/lib.rs`. -/
inductive Format where
  | MP4
  | WebM
  | MOV
  | Other (s : String)
  deriving DecidableEq, Repr

/-- The `Display` impl for `Format` in `src/lib.rs`. -/
def Format.display : Format → String
  | .MP4 => "mp4"
  | .WebM => "webm"
  | .MOV => "mov"
  | .Other s => s

/-- The `VideoFormat` struct of `src/lib.rs` (file sizes as `Nat`). -/
structure VideoFormat where
  id : String
  quality : Quality
  format : Format
  file_size : Option Nat
  deriving DecidableEq, Repr

/-- The `VideoInfo` struct of `src/lib.rs`, with the source URL kept as a
plain string. -/
structure VideoInfo where
  url : String
  title : String
  description : Option String
  duration : Option Nat
  formats : List VideoFormat
  deriving DecidableEq, Repr

/-- The `Error` enum of `src/error.rs`, together with the extra variants
(`IoError`, `InvalidArgument`, `UnsupportedPlatform` carrying the host)
that the command modules of this snapshot construct.  `Network` and `IO`
payloads are reduced to their display strings. -/
inductive Error where
  | Network (msg : String)
  | Io (msg : String)
  | InvalidUrl (msg : String)
  | Platform (msg : String)
  | InvalidFormat (msg : String)
  | UnsupportedPlatform (host : String)
  | CommandExecution (command : String) (reason : String)
  | OutputParsing (msg : String)
  | DownloadFailed (reason : String)
  | InvalidOutputPath (path : String)
  | NoSuitableFormats
  | IoError (msg : String)
  | InvalidArgument (msg : String)
  deriving DecidableEq, Repr

/-! ## Format negotiation (`src/commands/download.rs` lines 24-46 and the
identical logic in `src/commands/batch.rs` lines 22-43) -/

/-- Direct transliteration of the format-selection logic shared by
`download_command` and `download_single_video`: a mutable
`selected_format` refined by three sequential attempts, then
`or_else(first).ok_or(NoSuitableFormats)`. -/
def selectFormat (formats : List VideoFormat) (quality fmt : String) :
    Except Error VideoFormat :=
  let s0 := formats.find? fun f =>
    eqIgnoreAsciiCase f.format.display fmt &&
    eqIgnoreAsciiCase f.quality.display quality
  let s1 := match s0 with
    | some f => some f
    | none => formats.find? fun f => eqIgnoreAsciiCase f.quality.display quality
  let s2 :=
    if s1.isNone && !(eqIgnoreAsciiCase quality "best") then
      formats.find? fun f => eqIgnoreAsciiCase f.format.display fmt
    else s1
  match (match s2 with | some f => some f | none => formats.head?) with
  | some f => .ok f
  | none => .error .NoSuitableFormats

/-- The claim's reading of the negotiation policy, differing from the code
in one point: step 3 is skipped only when the requested quality is the
literal string "best" (exact comparison), not any case variant of it. -/
def selectFormatClaimSpec (formats : List VideoFormat) (quality fmt : String) :
    Except Error VideoFormat :=
  match formats with
  | [] => .error .NoSuitableFormats
  | f0 :: _ =>
    match formats.find? fun f =>
        eqIgnoreAsciiCase f.format.display fmt &&
        eqIgnoreAsciiCase f.quality.display quality with
    | some f => .ok f
    | none =>
      match formats.find? fun f => eqIgnoreAsciiCase f.quality.display quality with
      | some f => .ok f
      | none =>
        if quality = "best" then .ok f0
        else
          match formats.find? fun f => eqIgnoreAsciiCase f.format.display fmt with
          | some f => .ok f
          | none => .ok f0

/-- The amended tier description: identical to the claim's policy except
that the "best" sentinel is compared ASCII-case-insensitively, exactly as
the code does. -/
def selectFormatAmendedSpec (formats : List VideoFormat) (quality fmt : String) :
    Except Error VideoFormat :=
  match formats with
  | [] => .error .NoSuitableFormats
  | f0 :: _ =>
    match formats.find? fun f =>
        eqIgnoreAsciiCase f.format.display fmt &&
        eqIgnoreAsciiCase f.quality.display quality with
    | some f => .ok f
    | none =>
      match formats.find? fun f => eqIgnoreAsciiCase f.quality.display quality with
      | some f => .ok f
      | none =>
        if eqIgnoreAsciiCase quality "best" then .ok f0
        else
          match formats.find? fun f => eqIgnoreAsciiCase f.format.display fmt with
          | some f => .ok f
          | none => .ok f0

/-! ## Quality classification (`src/platform/youtube.rs` `determine_quality`,
lines 152-169) -/

/-- Direct transliteration of `YouTube::determine_quality`. -/
def determine_quality (line : String) : Quality :=
  if containsStr line "3840x2160" || containsStr line "2160p" then .UHD2160
  else if containsStr line "1920x1080" || containsStr line "1080p" then .HD1080
  else if containsStr line "1280x720" || containsStr line "720p" then .HD720
  else if containsStr line "854x480" || containsStr line "480p" then .Medium
  else if containsStr line "640x360" || containsStr line "360p" then .Low
  else if containsStr line "426x240" || containsStr line "240p" then .Low
  else .Medium

/-- The recognised resolution labels in priority order, each with the
quality tier it classifies to. -/
def qualityLabelTable : List (String × String × Quality) :=
  [("3840x2160", "2160p", .UHD2160),
   ("1920x1080", "1080p", .HD1080),
   ("1280x720", "720p", .HD720),
   ("854x480", "480p", .Medium),
   ("640x360", "360p", .Low),
   ("426x240", "240p", .Low)]

/-- The amended table description of the classifier: first label pair
(checked highest to lowest) contained in the line wins, and a line
containing none of the labels defaults to Medium. -/
def qualityTableSpec (line : String) : Quality :=
  match qualityLabelTable.find? fun e =>
      containsStr line e.1 || containsStr line e.2.1 with
  | some e => e.2.2
  | none => .Medium

/-- True exactly on the `Custom` variant. -/
def Quality.isCustom : Quality → Bool
  | .Custom _ => true
  | _ => false

/-! ## Format listing (`src/platform/youtube.rs` `get_format_info`,
lines 67-149).  The subprocess invocation is abstracted into its
observable outcome: exit status, stderr text and stdout lines. -/

/-- The extension-to-container mapping of the parse loop (lines 119-124). -/
def formatFromExt (ext : String) : Format :=
  if ext = "mp4" then .MP4
  else if ext = "webm" then .WebM
  else if ext = "mov" then .MOV
  else .Other ext

/-- One iteration of the stdout parse loop (lines 94-133): skip header,
separator and blank lines, lines with fewer than three
whitespace-separated parts, and audio-only rows; otherwise build a
`VideoFormat` from the first two columns and the classified quality. -/
def parseFormatLine (line : String) : Option VideoFormat :=
  if strLeadsWith line "ID" || strLeadsWith line "--" || isBlank line then none
  else
    match splitWhitespace line with
    | p0 :: p1 :: _ :: _ =>
      if containsStr line "audio only" then none
      else some ⟨p0, determine_quality line, formatFromExt p1, none⟩
    | _ => none

/-- The formats parsed from the stdout lines, in order. -/
def parseFormats (stdoutLines : List String) : List VideoFormat :=
  stdoutLines.filterMap parseFormatLine

/-- The synthetic safety-net entry always appended (lines 136-141). -/
def bestEntry : VideoFormat := ⟨"best", .HD1080, .MP4, none⟩

/-- Result of `get_format_info` as a function of the subprocess outcome:
non-zero exit returns the command-execution error carrying stderr (lines
82-88) before any parsing; on zero exit the parsed formats plus the
synthetic entry are returned unless only the synthetic entry is present,
which is the no-suitable-formats error (lines 143-146). -/
def get_format_info_result (exitSuccess : Bool) (stderr : String)
    (stdoutLines : List String) : Except Error (List VideoFormat) :=
  if !exitSuccess then .error (.CommandExecution "yt-dlp" stderr)
  else
    let formats := parseFormats stdoutLines ++ [bestEntry]
    if formats.length ≤ 1 then .error .NoSuitableFormats
    else .ok formats

/-! ## YouTube download outcome (`src/platform/youtube.rs`
`download_video`, lines 348-368).  The model covers the logic after the
subprocess has been spawned and waited on successfully: the result
depends only on whether the output file exists; the exit status merely
prints a warning. -/

/-- Post-wait result of `YouTube::download_video`: failure with a
`DownloadFailed` error exactly when no output file was produced; the
message embeds the ffmpeg hint or the collected stderr text. -/
def youtubeDownloadResult (outputExists ffmpegAvailable exitSuccess : Bool)
    (errorOutput : String) : Except Error Unit :=
  if !outputExists then
    .error (.DownloadFailed ("Download failed: Output file not created. " ++
      (if !ffmpegAvailable then
        "ffmpeg is required for merging video and audio. Please install ffmpeg."
      else errorOutput)))
  else
    -- the non-zero-exit branch only prints warnings (lines 361-366)
    .ok ()

/-- True exactly on the `DownloadFailed` variant. -/
def Error.isDownloadFailed : Error → Bool
  | .DownloadFailed _ => true
  | _ => false

/-- True exactly when the result is an error of the `DownloadFailed`
variant. -/
def isDownloadFailedResult : Except Error Unit → Bool
  | .error e => e.isDownloadFailed
  | .ok _ => false

/-! ## TikTok strategy (`src/platform/tiktok.rs`) -/

/-- The `TikTokVideoDetails` struct (lines 93-107). -/
structure TikTokVideoDetails where
  height : Nat
  duration : Nat
  play_url : String
  download_url : String
  format : String
  bit_rate : Nat
  deriving DecidableEq, Repr

/-- The `TikTokAuthor` struct (lines 109-114). -/
structure TikTokAuthor where
  nickname : String
  unique_id : String
  deriving DecidableEq, Repr

/-- The `TikTokStats` struct (lines 116-122). -/
structure TikTokStats where
  play_count : Nat
  like_count : Nat
  deriving DecidableEq, Repr

/-- The `TikTokVideo` struct (lines 83-91). -/
structure TikTokVideo where
  desc : String
  video : TikTokVideoDetails
  author : TikTokAuthor
  statistics : TikTokStats
  deriving DecidableEq, Repr

/-- `TikTok::determine_quality` (lines 405-415), a height threshold
chain. -/
def tiktokDetermineQuality (height : Nat) : Quality :=
  if height ≥ 1080 then .HD1080
  else if height ≥ 720 then .HD720
  else if height ≥ 480 then .Medium
  else .Low

/-- The description string built in `TikTok::extract_info`
(lines 483-489). -/
def tiktokDescription (v : TikTokVideo) : String :=
  "By " ++ v.author.nickname ++ " (@" ++ v.author.unique_id ++ ") - " ++
  toString v.statistics.play_count ++ " plays, " ++
  toString v.statistics.like_count ++ " likes"

/-- `TikTok::extract_info` (lines 471-498) as a function of the outcome
of `fetch_video_info` (network and parsing abstracted into the fetched
value): on success it always pushes exactly one "default" MP4 format. -/
def tiktokExtractInfo (url : String) (fetched : Except Error TikTokVideo) :
    Except Error VideoInfo :=
  match fetched with
  | .error e => .error e
  | .ok v =>
    .ok { url := url
          title := v.desc
          description := some (tiktokDescription v)
          duration := some v.video.duration
          formats := [⟨"default", tiktokDetermineQuality v.video.height, .MP4,
            some ((v.video.bit_rate / 8) * v.video.duration)⟩] }

/-- Observable events of `TikTok::download_video` used to state the retry
discipline. -/
inductive TEvent where
  | fetchInfo
  | sleepMs (ms : Nat)
  | attempt (url : String)
  deriving DecidableEq, Repr

/-- `TikTok::download_video` (lines 500-553) as a function of the
outcomes of its effectful steps, in program order: the initial
`fetch_video_info` (`fetch1`), the transfer from the fetched
`download_url` (`a1`), the transfer from the fetched `play_url` (`a2`),
the refreshed `fetch_video_info` (`fetch2`), and the two retried
transfers (`a3`, `a4`).  When every attempt fails the function returns a
freshly constructed generic `DownloadFailed` error (lines 550-552), even
though the comment above it says the original error is returned. -/
def tiktokDownloadVideo (formatId : String)
    (fetch1 : Except Error TikTokVideoDetails) (a1 a2 : Except Error Unit)
    (fetch2 : Except Error TikTokVideoDetails) (a3 a4 : Except Error Unit) :
    Except Error Unit :=
  if formatId ≠ "default" then .error (.InvalidFormat formatId)
  else
    match fetch1 with
    | .error e => .error e
    | .ok _ =>
      match a1 with
      | .ok _ => .ok ()
      | .error _ =>
        match a2 with
        | .ok _ => .ok ()
        | .error _ =>
          match fetch2 with
          | .error e => .error e
          | .ok _ =>
            match a3 with
            | .ok _ => .ok ()
            | .error _ =>
              match a4 with
              | .ok _ => .ok ()
              | .error _ =>
                .error (.DownloadFailed
                  "Failed to download TikTok video after multiple attempts")

/-- The event trace of `TikTok::download_video` on the same outcomes: the
initial fetch, the first two transfer attempts, then (only if both
failed) the refresh fetch, the fixed 500 ms sleep (line 534), and the two
retried attempts. -/
def tiktokDownloadTrace (formatId : String)
    (fetch1 : Except Error TikTokVideoDetails) (a1 a2 : Except Error Unit)
    (fetch2 : Except Error TikTokVideoDetails) (a3 : Except Error Unit) :
    List TEvent :=
  if formatId ≠ "default" then []
  else
    .fetchInfo ::
      match fetch1 with
      | .error _ => []
      | .ok d1 =>
        .attempt d1.download_url ::
          match a1 with
          | .ok _ => []
          | .error _ =>
            .attempt d1.play_url ::
              match a2 with
              | .ok _ => []
              | .error _ =>
                .fetchInfo ::
                  match fetch2 with
                  | .error _ => []
                  | .ok d2 =>
                    .sleepMs 500 :: .attempt d2.download_url ::
                      match a3 with
                      | .ok _ => []
                      | .error _ => [.attempt d2.play_url]

/-! ## Progress updates -/

/-- The progress values sent by `RedditPlatform::download_video`
(`src/platform/reddit.rs` lines 116-133): after each received chunk, if
the content length `total` is positive, the value
`(downloaded / total) * 100.0` is sent.  `f64` arithmetic is modelled
over `Rat`. -/
def redditSendsAux (downloaded total : Nat) : List Nat → List Rat
  | [] => []
  | c :: cs =>
    (if 0 < total then [((downloaded + c : Rat) / (total : Rat)) * 100] else [])
      ++ redditSendsAux (downloaded + c) total cs

/-- Progress values sent by the reddit strategy over a chunk stream. -/
def redditProgressSends (chunks : List Nat) (total : Nat) : List Rat :=
  redditSendsAux 0 total chunks

/-- The progress values sent by `TikTok::download_video_file`
(`src/platform/tiktok.rs` lines 441-453): after each chunk the value
`downloaded / total` is sent unconditionally. -/
def tiktokSendsAux (downloaded total : Nat) : List Nat → List Rat
  | [] => []
  | c :: cs =>
    ((downloaded + c : Rat) / (total : Rat)) :: tiktokSendsAux (downloaded + c) total cs

/-- Progress values sent by the tiktok strategy over a chunk stream. -/
def tiktokProgressSends (chunks : List Nat) (total : Nat) : List Rat :=
  tiktokSendsAux 0 total chunks

/-- The progress value sent by `YouTube::download_video` for a parsed
progress line (lines 333-337): the captured percentage divided by 100. -/
def youtubeProgressValue (percent : Rat) : Rat := percent / 100

/-! ## Reddit strategy (`src/platform/reddit.rs`) -/

/-- The fields of the reddit post JSON that `extract_info` reads
(lines 50-79), with absent fields as `none`. -/
structure RedditPost where
  is_video : Bool
  fallback_url : Option String
  duration : Option Nat
  title : Option String
  selftext : Option String
  deriving DecidableEq, Repr

/-- `RedditPlatform::extract_info` (lines 35-83) as a function of the
fetched post (the network and JSON steps abstracted into the `post`
value): rejects non-video posts and posts without a fallback URL, and on
success always returns the single hard-coded "high" MP4 format. -/
def redditExtractInfo (url : String) (post : RedditPost) :
    Except Error VideoInfo :=
  if !post.is_video then .error (.Platform "Not a video post")
  else
    match post.fallback_url with
    | none => .error (.Platform "Could not find video URL")
    | some _ =>
      .ok { url := url
            title := post.title.getD "Untitled"
            description := some (post.selftext.getD "")
            duration := some (post.duration.getD 0)
            formats := [⟨"high", .High, .MP4, none⟩] }

/-! ## Batch download-and-merge workflow
(`src/commands/download_merge.rs` `download_merge_command`).
Filesystem paths are modelled as a directory plus a file name, since the
sort at line 161 compares only the final path component
(`file_name()`). -/

/-- An output path inside the temp workspace: directory and file name. -/
structure OutPath where
  dir : String
  name : String
  deriving DecidableEq, Repr

/-- The full path string, as written into the concat manifest. -/
def OutPath.full (p : OutPath) : String := p.dir ++ "/" ++ p.name

/-- The single-quote character, kept out of string literals. -/
def squoteChar : Char := Char.ofNat 39

/-- The escaping of line 176: each single quote becomes
quote-backslash-quote-quote. -/
def escapeSingleQuotes (s : String) : String :=
  String.mk (List.flatten (s.toList.map fun c =>
    if c = squoteChar then [squoteChar, Char.ofNat 92, squoteChar, squoteChar]
    else [c]))

/-- One line of the ffmpeg concat manifest (line 177): the word file, a
space, and the escaped path wrapped in single quotes. -/
def manifestLine (p : OutPath) : String :=
  "file " ++ String.mk [squoteChar] ++ escapeSingleQuotes p.full ++
    String.mk [squoteChar]

/-- Sequential collection (lines 136-150): the successful outcomes in
submission order. -/
def seqDownloadedFiles (outcomes : List (Option OutPath)) : List OutPath :=
  outcomes.filterMap id

/-- The per-result projection of the parallel collection loop (lines
121-127): a failed download contributes nothing, a successful one keeps
its submission index. -/
def entryOf : Nat × Option OutPath → Option (Nat × OutPath)
  | (_, none) => none
  | (i, some path) => some (i, path)

/-- Comparison of index-tagged results by submission index, as in the
`sort_by_key` on line 130. -/
def idxLe (a b : Nat × OutPath) : Prop := a.1 ≤ b.1

/-- Strict version of `idxLe`, used to state uniqueness of the sorted
collection. -/
def idxLt (a b : Nat × OutPath) : Prop := a.1 < b.1

instance : DecidableRel idxLe := fun a b => inferInstanceAs (Decidable (a.1 ≤ b.1))

instance : IsTotal (Nat × OutPath) idxLe := ⟨fun a b => Nat.le_total a.1 b.1⟩

instance : IsTrans (Nat × OutPath) idxLe := ⟨fun _ _ _ => Nat.le_trans⟩

instance : IsAntisymm (Nat × OutPath) idxLt :=
  ⟨fun a b h1 h2 => absurd (Nat.lt_trans h1 h2) (Nat.lt_irrefl a.1)⟩

/-- Parallel collection (lines 119-135): the delivered `(index, result)`
pairs are filtered to the successes, sorted by submission index (a stable
sort, modelled by insertion sort), and stripped of their indices. -/
def parCollectFiles (delivered : List (Nat × Option OutPath)) : List OutPath :=
  (List.insertionSort idxLe (delivered.filterMap entryOf)).map Prod.snd

/-- Lexicographic less-or-equal on character lists by code point,
matching the byte order Rust `OsStr::cmp` uses on the ASCII file names at
issue. -/
def lexLe : List Char → List Char → Bool
  | [], _ => true
  | _ :: _, [] => false
  | a :: as, b :: bs =>
    if a.val < b.val then true
    else if b.val < a.val then false
    else lexLe as bs

/-- Comparison of outputs by file name, as in the `sort_by` on lines
161-163 (order on the final path component; a stable sort, modelled by
insertion sort). -/
def nameLe (a b : OutPath) : Prop := lexLe a.name.toList b.name.toList = true

instance : DecidableRel nameLe := fun a b =>
  inferInstanceAs (Decidable (lexLe a.name.toList b.name.toList = true))

/-- The file-name sort of line 161. -/
def sortByName (files : List OutPath) : List OutPath :=
  List.insertionSort nameLe files

/-- The aggregate failure message of lines 154-157. -/
def notEnoughMsg (n : Nat) : String :=
  "Not enough videos were successfully downloaded. Only got " ++ toString n ++
    " out of minimum 2 required."

/-- The manifest stage of `download_merge_command` (lines 152-184): fail
when fewer than two downloads succeeded, otherwise sort the collected
files by file name and emit one manifest line per file in that order. -/
def mergeManifestStage (downloadedFiles : List OutPath) :
    Except Error (List String) :=
  if downloadedFiles.length < 2 then
    .error (.DownloadFailed (notEnoughMsg downloadedFiles.length))
  else .ok ((sortByName downloadedFiles).map manifestLine)

/-- The claim's reading of the manifest stage: the manifest lists the
collected files in the submission order in which they arrive from the
collection stage, with no file-name re-sort. -/
def mergeManifestClaimSpec (downloadedFiles : List OutPath) :
    Except Error (List String) :=
  if downloadedFiles.length < 2 then
    .error (.DownloadFailed (notEnoughMsg downloadedFiles.length))
  else .ok (downloadedFiles.map manifestLine)

/-- Outcome of the ffmpeg remux subprocess in the merge workflow. -/
inductive FfmpegRun where
  | spawnFailure (msg : String)
  | exited (success : Bool) (stderr : String)
  deriving DecidableEq, Repr

/-- True when the subprocess was spawned and waited on, whatever its
exit status. -/
def FfmpegRun.completed : FfmpegRun → Bool
  | .exited _ _ => true
  | .spawnFailure _ => false

/-- Result of a `download_merge_command` run after the temp workspace was
created, paired with whether the workspace was deleted before
returning. -/
structure MergeRunOutcome where
  result : Except Error Unit
  tempDeleted : Bool
  deriving Repr

/-- The exit paths of `download_merge_command` after the batch download
(lines 152-228), as a function of the collected files, whether writing
the concat manifest file succeeded (`manifestOk` folds the I/O failures
of lines 168-184), and the ffmpeg outcome.  The temp directory is removed
only on the remux-failure path (line 214) and the success path (line
226); every earlier `return Err(...)` leaves it in place. -/
def downloadMergeRun (downloadedFiles : List OutPath) (manifestOk : Bool)
    (ffmpeg : FfmpegRun) : MergeRunOutcome :=
  if downloadedFiles.length < 2 then
    { result := .error (.DownloadFailed (notEnoughMsg downloadedFiles.length))
      tempDeleted := false }
  else if !manifestOk then
    { result := .error (.IoError "Failed to create temporary file")
      tempDeleted := false }
  else
    match ffmpeg with
    | .spawnFailure msg =>
      { result := .error (.CommandExecution "ffmpeg" msg), tempDeleted := false }
    | .exited false stderr =>
      { result := .error (.CommandExecution "ffmpeg" stderr), tempDeleted := true }
    | .exited true _ =>
      { result := .ok (), tempDeleted := true }

/-! ## URL normalisation (`src/platform/mod.rs` `normalize_url`,
lines 51-88).  The `url` crate is modelled for the ASCII fragment-free
grammar `scheme://host path ?query #fragment` that the normaliser and its
inputs range over: the parser lowercases scheme and host, defaults an
empty path to "/", ignores the fragment, and rejects (returns `none` for)
strings the real crate would transform rather than keep verbatim
(non-ASCII, whitespace and the characters the crate percent-encodes, and
hosts with ports or userinfo).  Query pairs follow the
`form_urlencoded` semantics used by `Url::query_pairs`: split on the
ampersand, drop empty pieces, split each piece at its first equals sign,
decode plus signs to spaces and valid percent escapes to bytes.
`Url::set_query` percent-encodes the query encode set (controls, space,
double quote, hash, angle brackets, and the single quote for special
schemes) and leaves everything else, including ampersands, equals signs
and percent signs, untouched. -/

/-- ASCII letter test. -/
def isAsciiAlpha (c : Char) : Bool :=
  (65 ≤ c.toNat && c.toNat ≤ 90) || (97 ≤ c.toNat && c.toNat ≤ 122)

/-- ASCII letter-or-digit test. -/
def isAsciiAlphaNum (c : Char) : Bool :=
  isAsciiAlpha c || (48 ≤ c.toNat && c.toNat ≤ 57)

/-- Characters accepted in a host: letters, digits, dots and hyphens
(ports, userinfo and IDNA hosts are outside the model). -/
def isHostChar (c : Char) : Bool :=
  isAsciiAlphaNum c || c == '.' || c == '-'

/-- Characters kept verbatim in a path by the modelled parser: printable
ASCII except the path encode set, delimiters and separators. -/
def pathOkChar (c : Char) : Bool :=
  33 ≤ c.toNat && c.toNat ≤ 126 &&
  !(c == '"' || c == '<' || c == '>' || c == '?' || c == '#' ||
    c == Char.ofNat 96 || c == Char.ofNat 123 || c == Char.ofNat 125 ||
    c == Char.ofNat 92 || c == '^' || c == '|')

/-- Characters kept verbatim in a query by the modelled parser: printable
ASCII except the query encode set and the fragment delimiter. -/
def queryOkChar (c : Char) : Bool :=
  33 ≤ c.toNat && c.toNat ≤ 126 &&
  !(c == '"' || c == '<' || c == '>' || c == '#' || c == squoteChar)

/-- Splits a character list at the first character satisfying the stop
predicate, keeping the stop character with the remainder. -/
def splitAtPred (p : Char → Bool) : List Char → List Char × List Char
  | [] => ([], [])
  | c :: cs =>
    if p c then ([], c :: cs)
    else
      let r := splitAtPred p cs
      (c :: r.1, r.2)

/-- The URL record of the model: scheme, host, canonical path (always
starting with a slash) and optional raw query text. -/
structure UrlRec where
  scheme : String
  host : String
  path : String
  query : Option String
  deriving DecidableEq, Repr

/-- The string rendering of a URL record, as `Url::to_string` renders the
modelled fragment-free URLs. -/
def UrlRec.render (u : UrlRec) : String :=
  u.scheme ++ "://" ++ u.host ++ u.path ++
    (match u.query with
     | none => ""
     | some q => "?" ++ q)

/-- The scheme delimiter test. -/
def colonStop (c : Char) : Bool := c == ':'

/-- The characters ending a host. -/
def hostStop (c : Char) : Bool := c == '/' || c == '?' || c == '#'

/-- The characters ending a path. -/
def pathStop (c : Char) : Bool := c == '?' || c == '#'

/-- The character ending a query. -/
def hashStop (c : Char) : Bool := c == '#'

/-- The modelled `Url::parse`. -/
def urlParse (s : String) : Option UrlRec :=
  match splitAtPred colonStop s.toList with
  | (sch, ':' :: '/' :: '/' :: rest) =>
    if sch.isEmpty || !(sch.all isAsciiAlpha) then none
    else
      if (splitAtPred hostStop rest).1.isEmpty ||
          !((splitAtPred hostStop rest).1.all isHostChar) then none
      else
        if !((splitAtPred pathStop (splitAtPred hostStop rest).2).1.all pathOkChar)
        then none
        else
          match (splitAtPred pathStop (splitAtPred hostStop rest).2).2 with
          | '?' :: qrest =>
            if !((splitAtPred hashStop qrest).1.all queryOkChar) then none
            else
              some ⟨asciiLower (String.mk sch),
                asciiLower (String.mk (splitAtPred hostStop rest).1),
                (if (splitAtPred pathStop (splitAtPred hostStop rest).2).1.isEmpty
                 then "/"
                 else String.mk (splitAtPred pathStop (splitAtPred hostStop rest).2).1),
                some (String.mk (splitAtPred hashStop qrest).1)⟩
          | _ =>
            some ⟨asciiLower (String.mk sch),
              asciiLower (String.mk (splitAtPred hostStop rest).1),
              (if (splitAtPred pathStop (splitAtPred hostStop rest).2).1.isEmpty
               then "/"
               else String.mk (splitAtPred pathStop (splitAtPred hostStop rest).2).1),
              none⟩
  | _ => none

/-- Hexadecimal digit test. -/
def isHexDigit (c : Char) : Bool :=
  (48 ≤ c.toNat && c.toNat ≤ 57) || (65 ≤ c.toNat && c.toNat ≤ 70) ||
  (97 ≤ c.toNat && c.toNat ≤ 102)

/-- Value of a hexadecimal digit. -/
def hexVal (c : Char) : Nat :=
  if 48 ≤ c.toNat && c.toNat ≤ 57 then c.toNat - 48
  else if 65 ≤ c.toNat && c.toNat ≤ 70 then c.toNat - 55
  else c.toNat - 87

/-- The `form_urlencoded` decoding of one key or value: plus signs become
spaces and valid percent escapes become the escaped byte; everything else
(including invalid escapes) is kept. -/
def decodeChars : List Char → List Char
  | [] => []
  | '+' :: cs => ' ' :: decodeChars cs
  | '%' :: h1 :: h2 :: rest =>
    if isHexDigit h1 && isHexDigit h2 then
      Char.ofNat (16 * hexVal h1 + hexVal h2) :: decodeChars rest
    else '%' :: decodeChars (h1 :: h2 :: rest)
  | '%' :: cs => '%' :: decodeChars cs
  | c :: cs => c :: decodeChars cs

/-- Splits a character list on a separator, keeping empty pieces. -/
def splitOnChar (sep : Char) : List Char → List (List Char)
  | [] => [[]]
  | c :: cs =>
    if c = sep then [] :: splitOnChar sep cs
    else
      match splitOnChar sep cs with
      | p :: ps => (c :: p) :: ps
      | [] => [[c]]

/-- Splits one query piece at its first equals sign; a piece without one
gets an empty value. -/
def splitPairAtEq : List Char → List Char × List Char
  | [] => ([], [])
  | c :: cs =>
    if c = '=' then ([], cs)
    else
      let r := splitPairAtEq cs
      (c :: r.1, r.2)

/-- The modelled `Url::query_pairs`: split the raw query on ampersands,
drop empty pieces, split each piece at its first equals sign and decode
both sides. -/
def parseQueryPairs (q : String) : List (String × String) :=
  ((splitOnChar '&' q.toList).filter fun piece => !piece.isEmpty).map fun piece =>
    let kv := splitPairAtEq piece
    (String.mk (decodeChars kv.1), String.mk (decodeChars kv.2))

/-- The allow-list test of lines 66-72: the keys v, t and id survive. -/
def allowedKey (k : String) : Bool :=
  k == "v" || k == "t" || k == "id"

/-- The allow-listed pairs of a raw query, in order. -/
def essentialOf (q : String) : List (String × String) :=
  (parseQueryPairs q).filter fun kv => allowedKey kv.1

/-- The serialisation of lines 77-83: each pair rendered as key, equals
sign, value, joined by ampersands, without re-encoding. -/
def serializePairsChars : List (String × String) → List Char
  | [] => []
  | [kv] => kv.1.toList ++ '=' :: kv.2.toList
  | kv :: rest => kv.1.toList ++ '=' :: kv.2.toList ++ '&' :: serializePairsChars rest

/-- An uppercase hexadecimal digit. -/
def hexDigitUpper (n : Nat) : Char :=
  if n < 10 then Char.ofNat (48 + n) else Char.ofNat (55 + n)

/-- The percent-encoding `Url::set_query` applies: characters of the
special-scheme query encode set become percent escapes, everything else
stays. -/
def queryEncodeChar (c : Char) : List Char :=
  if c.toNat < 32 || c.toNat == 127 || c == ' ' || c == '"' || c == '#' ||
      c == '<' || c == '>' || c == squoteChar then
    ['%', hexDigitUpper (c.toNat / 16), hexDigitUpper (c.toNat % 16)]
  else [c]

/-- Encoding of a whole query string by `Url::set_query`. -/
def encodeQuery (cs : List Char) : String :=
  String.mk (List.flatten (cs.map queryEncodeChar))

/-- The modelled `normalize_url` of `src/platform/mod.rs`: parse, rebuild
scheme-host-path, filter the query pairs through the allow-list, and set
the re-serialised pairs as the query only when some survived. -/
def normalize_url (s : String) : Except Error String :=
  match urlParse s with
  | none => .error (.InvalidUrl "invalid URL")
  | some url =>
    match urlParse (url.scheme ++ "://" ++ url.host ++ url.path) with
    | none => .error (.InvalidUrl "invalid URL")
    | some normalized =>
      match url.query with
      | none => .ok normalized.render
      | some q =>
        let essential := essentialOf q
        if essential.isEmpty then .ok normalized.render
        else
          .ok ({ normalized with
            query := some (encodeQuery (serializePairsChars essential)) }).render

/-- The query component of a rendered URL, read back through the
parser. -/
def outQuery (s : String) : Option String :=
  match urlParse s with
  | some r => r.query
  | none => none

/-- A query character is plain when the decoder, the serialiser and the
encoder all pass it through unchanged: an accepted query character that
is not an ampersand, equals sign, plus sign or percent sign. -/
def plainChar (c : Char) : Bool :=
  queryOkChar c && !(c == '&' || c == '=' || c == '+' || c == '%')

/-- A string of plain query characters. -/
def plainStr (s : String) : Bool :=
  s.toList.all plainChar

/-- The record with the query removed: what reparsing the rebuilt
scheme-host-path string yields. -/
def baseRec (u : UrlRec) : UrlRec :=
  { u with query := none }

/-- The output of `normalize_url` as a function of the parsed input
record. -/
def normOutput (url : UrlRec) : String :=
  match url.query with
  | none => (baseRec url).render
  | some q =>
    if (essentialOf q).isEmpty then (baseRec url).render
    else
      ({ baseRec url with
        query := some (encodeQuery (serializePairsChars (essentialOf q))) }).render

end VideoDl

namespace VideoDl

/-! ## Theorems for C3 and C6 -/

/-- A two-element format list: a 720p WebM stream first, a 1080p MP4
stream second. -/
def formatsTwo : List VideoFormat :=
  [⟨"1", .HD720, .WebM, none⟩, ⟨"2", .HD1080, .MP4, none⟩]

/-- C3 counterexample: requesting quality "BEST" with container "mp4" over
`formatsTwo`, the code skips the container-only step (its sentinel test is
case-insensitive) and returns the first element, while the claim - which
gates that step on the literal string "best" only - selects the MP4 entry.
The two policies disagree at this concrete input, so the claim as stated
is false of the code. -/
theorem C3_counterexample :
    selectFormat formatsTwo "BEST" "mp4" = .ok ⟨"1", .HD720, .WebM, none⟩ ∧
    selectFormatClaimSpec formatsTwo "BEST" "mp4" = .ok ⟨"2", .HD1080, .MP4, none⟩ ∧
    selectFormat formatsTwo "BEST" "mp4" ≠ selectFormatClaimSpec formatsTwo "BEST" "mp4" := by
  refine ⟨by rfl, by rfl, ?_⟩
  intro h
  simp [selectFormat, selectFormatClaimSpec, formatsTwo, eqIgnoreAsciiCase,
    asciiLower, asciiLowerChar, Quality.display, Format.display] at h

/-- C3 amended: the negotiation over a non-empty list selects, in strict
first-match order, (1) a case-insensitive match on both quality and
container, else (2) a quality-only match, else (3) - only when the
requested quality is not ASCII-case-insensitively equal to "best" - a
container-only match, else (4) the head of the list; and it fails with the
no-suitable-formats error exactly when the list is empty. -/
theorem C3_amended_negotiation (formats : List VideoFormat) (quality fmt : String) :
    selectFormat formats quality fmt = selectFormatAmendedSpec formats quality fmt ∧
    (selectFormat formats quality fmt = .error .NoSuitableFormats ↔ formats = []) := by
  constructor
  · cases formats with
    | nil => simp [selectFormat, selectFormatAmendedSpec]
    | cons f0 rest =>
      simp only [selectFormat, selectFormatAmendedSpec]
      cases h0 : (f0 :: rest).find? fun f =>
          eqIgnoreAsciiCase f.format.display fmt &&
          eqIgnoreAsciiCase f.quality.display quality with
      | some f => simp
      | none =>
        simp only
        cases h1 : (f0 :: rest).find? fun f =>
            eqIgnoreAsciiCase f.quality.display quality with
        | some f => simp
        | none =>
          simp only [Option.isNone]
          cases hb : eqIgnoreAsciiCase quality "best" with
          | true => simp
          | false =>
            simp only [Bool.not_false, Bool.and_true]
            cases h2 : (f0 :: rest).find? fun f =>
                eqIgnoreAsciiCase f.format.display fmt with
            | some f => simp
            | none => simp
  · cases formats with
    | nil => simp [selectFormat]
    | cons f0 rest =>
      constructor
      · intro h
        exfalso
        simp only [selectFormat] at h
        cases h0 : (f0 :: rest).find? fun f =>
            eqIgnoreAsciiCase f.format.display fmt &&
            eqIgnoreAsciiCase f.quality.display quality with
        | some f => rw [h0] at h; simp at h
        | none =>
          rw [h0] at h
          cases h1 : (f0 :: rest).find? fun f =>
              eqIgnoreAsciiCase f.quality.display quality with
          | some f => rw [h1] at h; simp at h
          | none =>
            rw [h1] at h
            simp only [Option.isNone] at h
            cases hb : eqIgnoreAsciiCase quality "best" with
            | true => rw [hb] at h; simp at h
            | false =>
              rw [hb] at h
              cases h2 : (f0 :: rest).find? fun f =>
                  eqIgnoreAsciiCase f.format.display fmt with
              | some f => rw [h2] at h; simp at h
              | none => rw [h2] at h; simp at h
      · intro h
        exact absurd h (by simp)

/-- C6 counterexample: the format line "18 mp4 unknown" contains none of
the recognised resolution labels, yet the classifier returns Medium, not
a Custom value - so "any line matching none of these thresholds classifies
as Custom" is false of the code. -/
theorem C6_counterexample :
    (qualityLabelTable.all fun e =>
      !(containsStr "18 mp4 unknown" e.1 || containsStr "18 mp4 unknown" e.2.1)) = true ∧
    determine_quality "18 mp4 unknown" = .Medium ∧
    (determine_quality "18 mp4 unknown").isCustom = false := by
  refine ⟨by decide, by decide, by decide⟩

/-- C6 amended: the classifier maps a format line through the fixed label
table in priority order - 3840x2160/2160p to UHD2160, 1920x1080/1080p to
HD1080, 1280x720/720p to HD720, 854x480/480p to Medium, 640x360/360p to
Low, 426x240/240p to Low - and a line containing none of these labels
defaults to Medium (never Custom). -/
theorem C6_amended_quality_table (line : String) :
    determine_quality line = qualityTableSpec line ∧
    (determine_quality line).isCustom = false := by
  unfold determine_quality qualityTableSpec qualityLabelTable
  simp only [List.find?]
  cases h1 : (containsStr line "3840x2160" || containsStr line "2160p") with
  | true => simp [h1, Quality.isCustom]
  | false =>
    cases h2 : (containsStr line "1920x1080" || containsStr line "1080p") with
    | true => simp [h1, h2, Quality.isCustom]
    | false =>
      cases h3 : (containsStr line "1280x720" || containsStr line "720p") with
      | true => simp [h1, h2, h3, Quality.isCustom]
      | false =>
        cases h4 : (containsStr line "854x480" || containsStr line "480p") with
        | true => simp [h1, h2, h3, h4, Quality.isCustom]
        | false =>
          cases h5 : (containsStr line "640x360" || containsStr line "360p") with
          | true => simp [h1, h2, h3, h4, h5, Quality.isCustom]
          | false =>
            cases h6 : (containsStr line "426x240" || containsStr line "240p") with
            | true => simp [h1, h2, h3, h4, h5, h6, Quality.isCustom]
            | false => simp [h1, h2, h3, h4, h5, h6, Quality.isCustom]

/-! ## Theorems for C7, C8, C10 -/

/-- C7 counterexample: when the format-listing tool exits with non-zero
status and zero parsed lines, the strategy fails with the
command-execution error carrying stderr - not with the typed
no-suitable-formats error the claim promises - because the non-zero exit
is checked before any line is parsed. -/
theorem C7_counterexample :
    get_format_info_result false "ERROR: unable to extract" [] =
      .error (.CommandExecution "yt-dlp" "ERROR: unable to extract") ∧
    get_format_info_result false "ERROR: unable to extract" [] ≠
      .error .NoSuitableFormats := by
  constructor
  · rfl
  · intro h
    simp [get_format_info_result] at h

/-- C7 amended: a non-zero exit always fails with the subprocess
execution error carrying the stderr text, regardless of parsed lines; the
typed no-suitable-formats error occurs exactly when the tool exits zero
and no format line parses (only the synthetic "best" entry remains). -/
theorem C7_amended_error_split (stderr : String) (stdoutLines : List String) :
    get_format_info_result false stderr stdoutLines =
      .error (.CommandExecution "yt-dlp" stderr) ∧
    (get_format_info_result true stderr stdoutLines = .error .NoSuitableFormats ↔
      parseFormats stdoutLines = []) := by
  constructor
  · rfl
  · cases h : parseFormats stdoutLines with
    | nil => simp [get_format_info_result, h, bestEntry]
    | cons f fs => simp [get_format_info_result, h]

/-- C8: each strategy's extraction never returns a success value with an
empty formats list: the YouTube format listing errors out unless at least
one real line parsed beside the synthetic entry, and the TikTok and
reddit extractors always build a one-element list on success (the title
field is likewise always populated, being a total field of the result). -/
theorem C8_extract_success_formats_nonempty :
    (∀ (exitSuccess : Bool) (stderr : String) (stdoutLines : List String)
        (fmts : List VideoFormat),
      get_format_info_result exitSuccess stderr stdoutLines = .ok fmts → fmts ≠ []) ∧
    (∀ (url : String) (fetched : Except Error TikTokVideo) (info : VideoInfo),
      tiktokExtractInfo url fetched = .ok info → info.formats ≠ []) ∧
    (∀ (url : String) (post : RedditPost) (info : VideoInfo),
      redditExtractInfo url post = .ok info → info.formats ≠ []) := by
  refine ⟨?_, ?_, ?_⟩
  · intro es st lines fmts h
    cases es with
    | false => simp [get_format_info_result] at h
    | true =>
      rw [show get_format_info_result true st lines =
          (if (parseFormats lines ++ [bestEntry]).length ≤ 1 then
            .error .NoSuitableFormats
          else .ok (parseFormats lines ++ [bestEntry])) from rfl] at h
      by_cases hl : (parseFormats lines ++ [bestEntry]).length ≤ 1
      · rw [if_pos hl] at h
        cases h
      · rw [if_neg hl] at h
        cases h
        simp
  · intro url fetched info h
    cases fetched with
    | error e => cases h
    | ok v =>
      cases h
      simp [tiktokExtractInfo]
  · intro url post info h
    unfold redditExtractInfo at h
    split at h
    · cases h
    · split at h
      · cases h
      · cases h
        simp

/-- A concrete reddit post accepted by the extractor. -/
def redditPostC : RedditPost :=
  ⟨true, some "https://v.redd.it/abc/DASH_720.mp4", some 10, some "A video", some ""⟩

/-- The `VideoInfo` the reddit extractor returns for `redditPostC`. -/
def redditInfoC : VideoInfo :=
  ⟨"https://www.reddit.com/r/videos/comments/abc", "A video", some "", some 10,
   [⟨"high", .High, .MP4, none⟩]⟩

/-- A concrete yt-dlp format listing with a header, a separator and two
video rows. -/
def ytLinesC : List String :=
  ["ID  EXT RESOLUTION", "------------------", "18  mp4 640x360", "137 mp4 1920x1080"]

/-- The formats parsed from `ytLinesC` plus the synthetic entry. -/
def ytFmtsC : List VideoFormat :=
  [⟨"18", .Low, .MP4, none⟩, ⟨"137", .HD1080, .MP4, none⟩, bestEntry]

/-- A concrete fetched TikTok video. -/
def tiktokVideoC : TikTokVideo :=
  ⟨"desc", ⟨720, 30, "https://cdn.example/play", "https://cdn.example/dl", "mp4", 1000000⟩,
   ⟨"nick", "uid"⟩, ⟨0, 0⟩⟩

/-- The `VideoInfo` the TikTok extractor returns for `tiktokVideoC`. -/
def tiktokInfoC : VideoInfo :=
  ⟨"https://www.tiktok.com/@u/video/1", "desc",
   some "By nick (@uid) - 0 plays, 0 likes", some 30,
   [⟨"default", .HD720, .MP4, some 3750000⟩]⟩

/-- C8 witness: the three extraction models evaluated at concrete
successful inputs, with the non-emptiness of each formats list obtained
from the claim theorem. -/
theorem C8_extract_success_formats_nonempty_witness :
    get_format_info_result true "" ytLinesC = .ok ytFmtsC ∧ ytFmtsC ≠ [] ∧
    tiktokExtractInfo "https://www.tiktok.com/@u/video/1" (.ok tiktokVideoC) =
      .ok tiktokInfoC ∧ tiktokInfoC.formats ≠ [] ∧
    redditExtractInfo "https://www.reddit.com/r/videos/comments/abc" redditPostC =
      .ok redditInfoC ∧ redditInfoC.formats ≠ [] :=
  ⟨by rfl,
   C8_extract_success_formats_nonempty.1 true "" ytLinesC ytFmtsC (by rfl),
   by rfl,
   C8_extract_success_formats_nonempty.2.1 "https://www.tiktok.com/@u/video/1"
     (.ok tiktokVideoC) tiktokInfoC (by rfl),
   by rfl,
   C8_extract_success_formats_nonempty.2.2 "https://www.reddit.com/r/videos/comments/abc"
     redditPostC redditInfoC (by rfl)⟩

/-- C10: after the subprocess has been waited on, the YouTube download
reports a `DownloadFailed` error exactly when the output file is absent;
when the file exists it returns success whatever the exit status was. -/
theorem C10_failure_iff_output_missing
    (ffmpegAvailable exitSuccess : Bool) (errorOutput : String) :
    youtubeDownloadResult true ffmpegAvailable exitSuccess errorOutput = .ok () ∧
    isDownloadFailedResult
      (youtubeDownloadResult false ffmpegAvailable exitSuccess errorOutput) = true := by
  exact ⟨rfl, rfl⟩

/-! ## Theorems for C4 and C5 -/

/-- The details obtained by the first TikTok metadata fetch. -/
def tiktokDetailsC : TikTokVideoDetails :=
  ⟨720, 30, "https://cdn.example/play1", "https://cdn.example/dl1", "mp4", 1000000⟩

/-- The details obtained by the refreshed TikTok metadata fetch. -/
def tiktokDetailsC2 : TikTokVideoDetails :=
  ⟨720, 30, "https://cdn.example/play2", "https://cdn.example/dl2", "mp4", 1000000⟩

/-- The error with which every transfer attempt fails in the C4 failing
input. -/
def e403 : Except Error Unit := .error (.Network "HTTP 403 Forbidden")

/-- C4: with the first transfer failing with a network error, extraction
is indeed re-run exactly once and the 500 ms delay precedes the retried
transfers (visible in the trace), but when the retries also fail the
surfaced error is the freshly built generic `DownloadFailed`, not the
original transfer error - contradicting both the claim and the comment in
the source directly above the return. -/
theorem C4_generic_error_replaces_original :
    tiktokDownloadVideo "default" (.ok tiktokDetailsC) e403 e403
        (.ok tiktokDetailsC2) e403 e403 =
      .error (.DownloadFailed "Failed to download TikTok video after multiple attempts") ∧
    tiktokDownloadVideo "default" (.ok tiktokDetailsC) e403 e403
        (.ok tiktokDetailsC2) e403 e403 ≠ e403 ∧
    tiktokDownloadTrace "default" (.ok tiktokDetailsC) e403 e403
        (.ok tiktokDetailsC2) e403 =
      [.fetchInfo, .attempt "https://cdn.example/dl1",
       .attempt "https://cdn.example/play1", .fetchInfo, .sleepMs 500,
       .attempt "https://cdn.example/dl2", .attempt "https://cdn.example/play2"] := by
  refine ⟨by rfl, ?_, by rfl⟩
  intro h
  simp [tiktokDownloadVideo, e403] at h

/-- C5: the reddit strategy sends `(downloaded / total) * 100.0` - a
percentage - so with a 50-byte chunk out of a 100-byte content length it
sends the value 50, far outside the `[0,1]` interval the contract
requires (the program's own progress consumer multiplies the received
value by 100 again); the tiktok strategy at the same input sends the
fraction 1/2 as the contract expects. -/
theorem C5_reddit_sends_percentage :
    redditProgressSends [50] 100 = [50] ∧ ¬((50 : Rat) ≤ 1) ∧
    tiktokProgressSends [50] 100 = [1 / 2] := by
  refine ⟨?_, by norm_num, ?_⟩
  · norm_num [redditProgressSends, redditSendsAux]
  · norm_num [tiktokProgressSends, tiktokSendsAux]

/-! ## Theorems for C1 and C2 -/

/-- Every success entry extracted from an enumeration starting at `n`
carries an index of at least `n`. -/
theorem le_fst_of_mem_filterMap_enumFrom {n : Nat} {outcomes : List (Option OutPath)}
    {x : Nat × OutPath} (hx : x ∈ (List.enumFrom n outcomes).filterMap entryOf) :
    n ≤ x.1 := by
  induction outcomes generalizing n with
  | nil => simp [List.enumFrom] at hx
  | cons o os ih =>
    rw [List.enumFrom_cons, List.filterMap_cons] at hx
    cases o with
    | none => exact Nat.le_trans (Nat.le_succ n) (ih hx)
    | some p =>
      rcases List.mem_cons.mp hx with h | h
      · subst h; exact Nat.le_refl n
      · exact Nat.le_trans (Nat.le_succ n) (ih h)

/-- The success entries of an enumeration have strictly increasing
submission indices. -/
theorem pairwise_idxLt_filterMap_enumFrom (n : Nat) (outcomes : List (Option OutPath)) :
    ((List.enumFrom n outcomes).filterMap entryOf).Pairwise idxLt := by
  induction outcomes generalizing n with
  | nil => simp [List.enumFrom]
  | cons o os ih =>
    rw [List.enumFrom_cons, List.filterMap_cons]
    cases o with
    | none => exact ih (n + 1)
    | some p =>
      refine List.Pairwise.cons ?_ (ih (n + 1))
      intro x hx
      exact Nat.lt_of_lt_of_le (Nat.lt_succ_self n)
        (le_fst_of_mem_filterMap_enumFrom hx)

/-- Stripping the indices from the success entries of an enumeration
recovers the successes in submission order. -/
theorem map_snd_filterMap_enumFrom (n : Nat) (outcomes : List (Option OutPath)) :
    ((List.enumFrom n outcomes).filterMap entryOf).map Prod.snd =
      outcomes.filterMap id := by
  induction outcomes generalizing n with
  | nil => simp [List.enumFrom]
  | cons o os ih =>
    rw [List.enumFrom_cons, List.filterMap_cons, List.filterMap_cons]
    cases o with
    | none => exact ih (n + 1)
    | some p => simp [entryOf, ih (n + 1)]

/-- C1 amended: whatever order the parallel scheduler delivers the
index-tagged results in (any permutation of the enumerated outcomes),
the collection stage yields exactly the sequential-mode success list,
in submission order; the manifest stage is therefore identical in both
modes and independent of completion order, and - when at least two
downloads succeeded - it lists the outputs sorted by file name (the
line-161 re-sort), not by submission index. -/
theorem C1_manifest_order (outcomes : List (Option OutPath))
    (delivered : List (Nat × Option OutPath))
    (hperm : delivered.Perm outcomes.enum) :
    parCollectFiles delivered = seqDownloadedFiles outcomes ∧
    mergeManifestStage (parCollectFiles delivered) =
      mergeManifestStage (seqDownloadedFiles outcomes) ∧
    (2 ≤ (seqDownloadedFiles outcomes).length →
      mergeManifestStage (seqDownloadedFiles outcomes) =
        .ok ((sortByName (seqDownloadedFiles outcomes)).map manifestLine)) := by
  have hbase := pairwise_idxLt_filterMap_enumFrom 0 outcomes
  have hpf : (delivered.filterMap entryOf).Perm
      ((List.enumFrom 0 outcomes).filterMap entryOf) :=
    List.Perm.filterMap entryOf hperm
  have hsort_perm : (List.insertionSort idxLe (delivered.filterMap entryOf)).Perm
      ((List.enumFrom 0 outcomes).filterMap entryOf) :=
    (List.perm_insertionSort idxLe _).trans hpf
  have hsorted_le : List.Sorted idxLe
      (List.insertionSort idxLe (delivered.filterMap entryOf)) :=
    List.sorted_insertionSort idxLe _
  have hne_base : ((List.enumFrom 0 outcomes).filterMap entryOf).Pairwise
      (fun a b => a.1 ≠ b.1) :=
    hbase.imp fun h => Nat.ne_of_lt h
  have hne : (List.insertionSort idxLe (delivered.filterMap entryOf)).Pairwise
      (fun a b => a.1 ≠ b.1) :=
    (List.Perm.pairwise_iff (fun h => Ne.symm h) hsort_perm).mpr hne_base
  have hlt : (List.insertionSort idxLe (delivered.filterMap entryOf)).Pairwise idxLt :=
    (List.Pairwise.and hsorted_le hne).imp fun h =>
      Nat.lt_of_le_of_ne h.1 h.2
  have heq : List.insertionSort idxLe (delivered.filterMap entryOf) =
      (List.enumFrom 0 outcomes).filterMap entryOf :=
    List.eq_of_perm_of_sorted hsort_perm hlt hbase
  have hmain : parCollectFiles delivered = seqDownloadedFiles outcomes := by
    unfold parCollectFiles seqDownloadedFiles
    rw [heq, map_snd_filterMap_enumFrom]
  refine ⟨hmain, by rw [hmain], ?_⟩
  intro h2
  unfold mergeManifestStage
  rw [if_neg (Nat.not_lt.mpr h2)]

/-- An output whose sanitised title sorts first alphabetically. -/
def pApple : OutPath := ⟨"/tmp/video_dl_merge", "apple.mp4"⟩

/-- An output whose sanitised title sorts last alphabetically. -/
def pZebra : OutPath := ⟨"/tmp/video_dl_merge", "zebra.mp4"⟩

/-- Submission-ordered outcomes of a two-URL batch in which the first
URL produced the zebra file and the second the apple file. -/
def outcomesC : List (Option OutPath) := [some pZebra, some pApple]

/-- A parallel delivery of `outcomesC` in reversed completion order. -/
def deliveredC : List (Nat × Option OutPath) := [(1, some pApple), (0, some pZebra)]

/-- C1 counterexample: with both downloads of a two-URL batch succeeding,
the first yielding zebra.mp4 and the second apple.mp4, the code's
manifest lists apple before zebra (file-name order) while the claim
requires zebra before apple (submission order); the two manifests differ
at a concrete input, so the claim as stated is false of the code. -/
theorem C1_counterexample :
    seqDownloadedFiles outcomesC = [pZebra, pApple] ∧
    mergeManifestStage [pZebra, pApple] =
      .ok [manifestLine pApple, manifestLine pZebra] ∧
    mergeManifestClaimSpec [pZebra, pApple] =
      .ok [manifestLine pZebra, manifestLine pApple] ∧
    manifestLine pApple ≠ manifestLine pZebra := by
  have hsort : sortByName [pZebra, pApple] = [pApple, pZebra] := by decide
  refine ⟨rfl, ?_, ?_, by decide⟩
  · unfold mergeManifestStage
    rw [if_neg (by decide), hsort]
    rfl
  · unfold mergeManifestClaimSpec
    rw [if_neg (by decide)]
    rfl

/-- C1 witness: the amended theorem applied to the concrete two-URL batch
above, with the reversed parallel delivery order, discharging the
permutation hypothesis and the two-successes bound by computation. -/
theorem C1_manifest_order_witness :
    parCollectFiles deliveredC = seqDownloadedFiles outcomesC ∧
    mergeManifestStage (seqDownloadedFiles outcomesC) =
      .ok ((sortByName (seqDownloadedFiles outcomesC)).map manifestLine) :=
  ⟨(C1_manifest_order outcomesC deliveredC (by decide)).1,
   (C1_manifest_order outcomesC deliveredC (by decide)).2.2 (by decide)⟩

/-- C2 counterexample: a run in which only one download succeeded exits
through the fewer-than-2 failure path with the aggregate error naming 1
succeeded versus the minimum 2, and the temp workspace is not deleted -
falsifying the claim that every exit path deletes it. -/
theorem C2_counterexample :
    (downloadMergeRun [pApple] true (.exited true "")).tempDeleted = false ∧
    (downloadMergeRun [pApple] true (.exited true "")).result =
      .error (.DownloadFailed (notEnoughMsg 1)) :=
  ⟨rfl, rfl⟩

/-- C2 amended: after the batch download, the temp workspace is deleted
exactly on the runs that reach the ffmpeg subprocess and see it exit
(successfully or not); the fewer-than-2-successes failure, the
manifest-write failures and the ffmpeg spawn failure all return with the
workspace left in place. -/
theorem C2_cleanup_characterisation (downloadedFiles : List OutPath)
    (manifestOk : Bool) (ffmpeg : FfmpegRun) :
    (downloadMergeRun downloadedFiles manifestOk ffmpeg).tempDeleted =
      (decide (2 ≤ downloadedFiles.length) && manifestOk && ffmpeg.completed) := by
  unfold downloadMergeRun
  by_cases h : downloadedFiles.length < 2
  · rw [if_pos h]
    have : ¬ 2 ≤ downloadedFiles.length := Nat.not_le.mpr h
    simp [this]
  · rw [if_neg h]
    have h2 : 2 ≤ downloadedFiles.length := Nat.not_lt.mp h
    cases manifestOk with
    | false => simp
    | true =>
      cases ffmpeg with
      | spawnFailure msg => simp [FfmpegRun.completed, h2]
      | exited success stderr => cases success <;> simp [FfmpegRun.completed, h2]

/-! ## Theorems for C9 -/

/-- Valid code points round-trip through `Char.ofNat`. -/
theorem char_toNat_ofNat (n : Nat) (h : n.isValidChar) : (Char.ofNat n).toNat = n := by
  unfold Char.ofNat
  rw [dif_pos h]
  rfl

/-- Code points up to 122 are valid. -/
theorem isValidChar_of_le {n : Nat} (h : n ≤ 122) : n.isValidChar :=
  Or.inl (by omega)

/-- Lowercasing an uppercase letter adds 32 to its code point. -/
theorem asciiLowerChar_of_upper {c : Char} (h : 65 ≤ c.toNat ∧ c.toNat ≤ 90) :
    (asciiLowerChar c).toNat = c.toNat + 32 := by
  unfold asciiLowerChar
  rw [if_pos h]
  exact char_toNat_ofNat _ (isValidChar_of_le (by omega))

/-- Lowercasing leaves a non-uppercase character unchanged. -/
theorem asciiLowerChar_of_not_upper {c : Char} (h : ¬(65 ≤ c.toNat ∧ c.toNat ≤ 90)) :
    asciiLowerChar c = c := by
  unfold asciiLowerChar
  exact if_neg h

/-- Lowercasing is idempotent on characters. -/
theorem asciiLowerChar_idem (c : Char) :
    asciiLowerChar (asciiLowerChar c) = asciiLowerChar c := by
  by_cases h : 65 ≤ c.toNat ∧ c.toNat ≤ 90
  · have ht := asciiLowerChar_of_upper h
    apply asciiLowerChar_of_not_upper
    omega
  · rw [asciiLowerChar_of_not_upper h, asciiLowerChar_of_not_upper h]

/-- Lowercasing preserves the letter test. -/
theorem isAsciiAlpha_lower {c : Char} (h : isAsciiAlpha c = true) :
    isAsciiAlpha (asciiLowerChar c) = true := by
  by_cases hu : 65 ≤ c.toNat ∧ c.toNat ≤ 90
  · have ht := asciiLowerChar_of_upper hu
    have hb : 97 ≤ (asciiLowerChar c).toNat ∧ (asciiLowerChar c).toNat ≤ 122 := by
      omega
    simp only [isAsciiAlpha, Bool.or_eq_true, Bool.and_eq_true, decide_eq_true_eq]
    exact Or.inr hb
  · rw [asciiLowerChar_of_not_upper hu]
    exact h

/-- Lowercasing preserves the host-character test. -/
theorem isHostChar_lower {c : Char} (h : isHostChar c = true) :
    isHostChar (asciiLowerChar c) = true := by
  by_cases hu : 65 ≤ c.toNat ∧ c.toNat ≤ 90
  · have ht := asciiLowerChar_of_upper hu
    have hb : 97 ≤ (asciiLowerChar c).toNat ∧ (asciiLowerChar c).toNat ≤ 122 := by
      omega
    simp only [isHostChar, isAsciiAlphaNum, isAsciiAlpha, Bool.or_eq_true,
      Bool.and_eq_true, decide_eq_true_eq]
    exact Or.inl (Or.inl (Or.inl (Or.inr hb)))
  · rw [asciiLowerChar_of_not_upper hu]
    exact h

/-- A map that fixes every element of a list fixes the list. -/
theorem map_id_on {l : List Char} {f : Char → Char} (h : ∀ c ∈ l, f c = c) :
    l.map f = l := by
  induction l with
  | nil => rfl
  | cons c cs ih =>
    rw [List.map_cons, h c (List.mem_cons_self c cs),
      ih fun x hx => h x (List.mem_cons_of_mem c hx)]

/-- The splitter walks past a character the stop predicate rejects. -/
theorem splitAtPred_cons_false {p : Char → Bool} {c : Char} (h : p c = false)
    (cs : List Char) :
    splitAtPred p (c :: cs) =
      (c :: (splitAtPred p cs).1, (splitAtPred p cs).2) := by
  simp [splitAtPred, h]

/-- The splitter splits exactly at the first stopping character. -/
theorem splitAtPred_stop {p : Char → Bool} {a : List Char} {b0 : Char}
    {b : List Char} (ha : ∀ c ∈ a, p c = false) (hb : p b0 = true) :
    splitAtPred p (a ++ b0 :: b) = (a, b0 :: b) := by
  induction a with
  | nil => simp [splitAtPred, hb]
  | cons c cs ih =>
    rw [List.cons_append,
      splitAtPred_cons_false (ha c (List.mem_cons_self c cs)),
      ih fun x hx => ha x (List.mem_cons_of_mem c hx)]

/-- A list without stopping characters is consumed whole. -/
theorem splitAtPred_none {p : Char → Bool} {a : List Char}
    (ha : ∀ c ∈ a, p c = false) :
    splitAtPred p a = (a, []) := by
  induction a with
  | nil => rfl
  | cons c cs ih =>
    rw [splitAtPred_cons_false (ha c (List.mem_cons_self c cs)),
      ih fun x hx => ha x (List.mem_cons_of_mem c hx)]

/-- The remainder of a split is empty or led by a stopping character. -/
theorem splitAtPred_snd_shape (p : Char → Bool) (l : List Char) :
    (splitAtPred p l).2 = [] ∨
      ∃ c cs, (splitAtPred p l).2 = c :: cs ∧ p c = true := by
  induction l with
  | nil => exact Or.inl rfl
  | cons c cs ih =>
    by_cases h : p c = true
    · exact Or.inr ⟨c, cs, by simp [splitAtPred, h], h⟩
    · rw [splitAtPred_cons_false (Bool.not_eq_true _ ▸ h : p c = false)]
      exact ih

/-- A letter is not the scheme delimiter. -/
theorem colonStop_false_of_alpha {c : Char} (h : isAsciiAlpha c = true) :
    colonStop c = false := by
  have h1 : c ≠ ':' := fun he => by subst he; exact absurd h (by decide)
  simp [colonStop, beq_eq_false_iff_ne, h1]

/-- A host character ends no host. -/
theorem hostStop_false_of_hostChar {c : Char} (h : isHostChar c = true) :
    hostStop c = false := by
  have h1 : c ≠ '/' := fun he => by subst he; exact absurd h (by decide)
  have h2 : c ≠ '?' := fun he => by subst he; exact absurd h (by decide)
  have h3 : c ≠ '#' := fun he => by subst he; exact absurd h (by decide)
  simp [hostStop, beq_eq_false_iff_ne, h1, h2, h3]

/-- An accepted path character ends no path. -/
theorem pathStop_false_of_pathOk {c : Char} (h : pathOkChar c = true) :
    pathStop c = false := by
  have h1 : c ≠ '?' := fun he => by subst he; exact absurd h (by decide)
  have h2 : c ≠ '#' := fun he => by subst he; exact absurd h (by decide)
  simp [pathStop, beq_eq_false_iff_ne, h1, h2]

/-- An accepted query character ends no query. -/
theorem hashStop_false_of_queryOk {c : Char} (h : queryOkChar c = true) :
    hashStop c = false := by
  have h1 : c ≠ '#' := fun he => by subst he; exact absurd h (by decide)
  simp [hashStop, beq_eq_false_iff_ne, h1]

/-- The canonical-form invariant of records the parser produces: lowered
all-letter scheme, lowered host of host characters, slash-led path of
accepted characters, and a query of accepted characters when present. -/
structure IsCanonical (u : UrlRec) : Prop where
  scheme_ne : u.scheme.toList ≠ []
  scheme_props : ∀ c ∈ u.scheme.toList, isAsciiAlpha c = true ∧ asciiLowerChar c = c
  host_ne : u.host.toList ≠ []
  host_props : ∀ c ∈ u.host.toList, isHostChar c = true ∧ asciiLowerChar c = c
  path_shape : ∃ rest, u.path.toList = '/' :: rest
  path_props : ∀ c ∈ u.path.toList, pathOkChar c = true
  query_props : ∀ q, u.query = some q → ∀ c ∈ q.toList, queryOkChar c = true

/-- Lowering a list of letters yields letters fixed by lowering. -/
theorem lowered_alpha_props {l : List Char} (hall : ∀ c ∈ l, isAsciiAlpha c = true) :
    ∀ c ∈ l.map asciiLowerChar, isAsciiAlpha c = true ∧ asciiLowerChar c = c := by
  intro c hc
  rcases List.mem_map.mp hc with ⟨c0, hc0, rfl⟩
  exact ⟨isAsciiAlpha_lower (hall c0 hc0), asciiLowerChar_idem c0⟩

/-- Lowering a list of host characters yields host characters fixed by
lowering. -/
theorem lowered_host_props {l : List Char} (hall : ∀ c ∈ l, isHostChar c = true) :
    ∀ c ∈ l.map asciiLowerChar, isHostChar c = true ∧ asciiLowerChar c = c := by
  intro c hc
  rcases List.mem_map.mp hc with ⟨c0, hc0, rfl⟩
  exact ⟨isHostChar_lower (hall c0 hc0), asciiLowerChar_idem c0⟩

/-- A boolean that is not false is true. -/
theorem bool_eq_true_of_ne_false {b : Bool} (h : ¬ b = false) : b = true := by
  cases b
  · exact absurd rfl h
  · rfl

/-- The path component stored by the parser starts with a slash. -/
theorem parsed_path_shape (rest : List Char) :
    ∃ tail, (if (splitAtPred pathStop (splitAtPred hostStop rest).2).1.isEmpty
      then "/"
      else String.mk (splitAtPred pathStop (splitAtPred hostStop rest).2).1).toList =
        '/' :: tail := by
  rcases splitAtPred_snd_shape hostStop rest with hnil | ⟨c, cs, hcc, hstop⟩
  · rw [hnil]
    exact ⟨[], rfl⟩
  · rw [hcc]
    have : (c = '/' ∨ c = '?') ∨ c = '#' := by
      simpa [hostStop, Bool.or_eq_true, beq_iff_eq] using hstop
    rcases this with (rfl | rfl) | rfl
    · rw [splitAtPred_cons_false (by decide)]
      simp [List.isEmpty]
    · rw [show splitAtPred pathStop ('?' :: cs) = ([], '?' :: cs) from by
        simp [splitAtPred, pathStop]]
      exact ⟨[], rfl⟩
    · rw [show splitAtPred pathStop ('#' :: cs) = ([], '#' :: cs) from by
        simp [splitAtPred, pathStop]]
      exact ⟨[], rfl⟩

/-- The scheme splitter stops at the first colon. -/
theorem splitColon {a : List Char} (b : List Char)
    (ha : ∀ c ∈ a, colonStop c = false) :
    splitAtPred colonStop (a ++ ':' :: b) = (a, ':' :: b) :=
  splitAtPred_stop ha rfl

/-- The host splitter stops at the first slash. -/
theorem splitHostSlash {a : List Char} (b : List Char)
    (ha : ∀ c ∈ a, hostStop c = false) :
    splitAtPred hostStop (a ++ '/' :: b) = (a, '/' :: b) :=
  splitAtPred_stop ha rfl

/-- The path splitter stops at the first question mark. -/
theorem splitPathQuestion {a : List Char} (b : List Char)
    (ha : ∀ c ∈ a, pathStop c = false) :
    splitAtPred pathStop (a ++ '?' :: b) = (a, '?' :: b) :=
  splitAtPred_stop ha rfl

/-- String append concatenates the character lists. -/
theorem string_toList_append (a b : String) :
    (a ++ b).toList = a.toList ++ b.toList :=
  String.data_append a b

/-- A non-nil list is not empty. -/
theorem isEmpty_false_of_ne {l : List Char} (h : l ≠ []) : l.isEmpty = false := by
  cases l
  · exact absurd rfl h
  · rfl

/-- The parser only returns canonical records. -/
theorem urlParse_canonical {s : String} {u : UrlRec} (h : urlParse s = some u) :
    IsCanonical u := by
  unfold urlParse at h
  split at h
  next sch rest heq =>
    split at h
    next hc1 => exact absurd h (by simp)
    next hc1 =>
      split at h
      next hc2 => exact absurd h (by simp)
      next hc2 =>
        split at h
        next hc3 => exact absurd h (by simp)
        next hc3 =>
          rw [Bool.or_eq_true, Bool.not_eq_true'] at hc1 hc2
          push_neg at hc1 hc2
          rw [Bool.not_eq_true'] at hc3
          have hschne : sch ≠ [] := by
            intro he
            exact absurd (by simp [he]) hc1.1
          have hschall : ∀ c ∈ sch, isAsciiAlpha c = true :=
            List.all_eq_true.mp (bool_eq_true_of_ne_false hc1.2)
          have hhostne : (splitAtPred hostStop rest).1 ≠ [] := by
            intro he
            exact absurd (by simp [he]) hc2.1
          have hhostall : ∀ c ∈ (splitAtPred hostStop rest).1, isHostChar c = true :=
            List.all_eq_true.mp (bool_eq_true_of_ne_false hc2.2)
          have hpathall :
              ∀ c ∈ (splitAtPred pathStop (splitAtPred hostStop rest).2).1,
                pathOkChar c = true :=
            List.all_eq_true.mp (bool_eq_true_of_ne_false hc3)
          split at h
          next qrest heq2 =>
            split at h
            next hc4 => exact absurd h (by simp)
            next hc4 =>
              rw [Bool.not_eq_true'] at hc4
              replace hc4 := bool_eq_true_of_ne_false hc4
              cases h
              refine ⟨?_, ?_, ?_, ?_, ?_, ?_, ?_⟩
              · simpa [asciiLower] using hschne
              · exact lowered_alpha_props hschall
              · simpa [asciiLower] using hhostne
              · exact lowered_host_props hhostall
              · exact parsed_path_shape rest
              · intro c hc
                rcases parsed_path_shape rest with ⟨tail, hsh⟩
                by_cases hpe :
                    (splitAtPred pathStop (splitAtPred hostStop rest).2).1.isEmpty
                · rw [if_pos hpe] at hc
                  have : c = '/' := by simpa using hc
                  subst this
                  decide
                · rw [if_neg hpe] at hc
                  exact hpathall c hc
              · intro q hq c hc
                cases hq
                exact List.all_eq_true.mp hc4 c hc
          next hne =>
            cases h
            refine ⟨?_, ?_, ?_, ?_, ?_, ?_, ?_⟩
            · simpa [asciiLower] using hschne
            · exact lowered_alpha_props hschall
            · simpa [asciiLower] using hhostne
            · exact lowered_host_props hhostall
            · exact parsed_path_shape rest
            · intro c hc
              by_cases hpe :
                  (splitAtPred pathStop (splitAtPred hostStop rest).2).1.isEmpty
              · rw [if_pos hpe] at hc
                have : c = '/' := by simpa using hc
                subst this
                decide
              · rw [if_neg hpe] at hc
                exact hpathall c hc
            · intro q hq
              cases hq
  next =>
    exact absurd h (by simp)

/-- Rendering a canonical record and reparsing it recovers the record. -/
theorem urlParse_render {u : UrlRec} (hcan : IsCanonical u) :
    urlParse u.render = some u := by
  obtain ⟨hsne, hsprops, hhne, hhprops, hpshape, hpprops, hqprops⟩ := hcan
  obtain ⟨ptail, hpt⟩ := hpshape
  have hcolon : ∀ c ∈ u.scheme.toList, colonStop c = false :=
    fun c hc => colonStop_false_of_alpha (hsprops c hc).1
  have hhost : ∀ c ∈ u.host.toList, hostStop c = false :=
    fun c hc => hostStop_false_of_hostChar (hhprops c hc).1
  have hpath : ∀ c ∈ u.path.toList, pathStop c = false :=
    fun c hc => pathStop_false_of_pathOk (hpprops c hc)
  have hslower : u.scheme.toList.map asciiLowerChar = u.scheme.toList :=
    map_id_on fun c hc => (hsprops c hc).2
  have hhlower : u.host.toList.map asciiLowerChar = u.host.toList :=
    map_id_on fun c hc => (hhprops c hc).2
  have hsall : u.scheme.toList.all isAsciiAlpha = true :=
    List.all_eq_true.mpr fun c hc => (hsprops c hc).1
  have hhall : u.host.toList.all isHostChar = true :=
    List.all_eq_true.mpr fun c hc => (hhprops c hc).1
  have hpall : u.path.toList.all pathOkChar = true :=
    List.all_eq_true.mpr hpprops
  have hhsplit : splitAtPred hostStop (u.host.toList ++ u.path.toList) =
      (u.host.toList, u.path.toList) := by
    rw [hpt]
    exact splitHostSlash ptail hhost
  have hpempty : u.path.toList.isEmpty = false := by
    rw [hpt]
    rfl
  cases hq : u.query with
  | none =>
    have hdata : u.render.toList =
        u.scheme.toList ++ ':' :: '/' :: '/' :: (u.host.toList ++ u.path.toList) := by
      simp [UrlRec.render, hq, string_toList_append]
    unfold urlParse
    rw [hdata]
    simp only [splitColon _ hcolon, hhsplit, splitAtPred_none hpath,
      isEmpty_false_of_ne hsne, isEmpty_false_of_ne hhne, hsall, hhall, hpall,
      hpempty, Bool.not_true, Bool.or_false, Bool.false_or, Bool.or_self,
      Bool.false_eq_true, if_false]
    rw [show asciiLower (String.mk u.scheme.toList) = u.scheme from
        congrArg String.mk hslower,
      show asciiLower (String.mk u.host.toList) = u.host from
        congrArg String.mk hhlower]
    rw [← hq]
    exact rfl
  | some q =>
    have hquery : ∀ c ∈ q.toList, hashStop c = false :=
      fun c hc => hashStop_false_of_queryOk (hqprops q hq c hc)
    have hqall : q.toList.all queryOkChar = true :=
      List.all_eq_true.mpr (hqprops q hq)
    have hdata : u.render.toList =
        u.scheme.toList ++ ':' :: '/' :: '/' ::
          (u.host.toList ++ (u.path.toList ++ '?' :: q.toList)) := by
      simp [UrlRec.render, hq, string_toList_append]
    have hhsplit2 : splitAtPred hostStop
        (u.host.toList ++ (u.path.toList ++ '?' :: q.toList)) =
        (u.host.toList, u.path.toList ++ '?' :: q.toList) := by
      rw [hpt, List.cons_append]
      exact splitHostSlash _ hhost
    unfold urlParse
    rw [hdata]
    simp only [splitColon _ hcolon, hhsplit2, splitPathQuestion _ hpath,
      splitAtPred_none hquery, isEmpty_false_of_ne hsne,
      isEmpty_false_of_ne hhne, hsall, hhall, hpall, hqall, hpempty,
      Bool.not_true, Bool.or_false, Bool.false_or, Bool.or_self,
      Bool.false_eq_true, if_false]
    rw [show asciiLower (String.mk u.scheme.toList) = u.scheme from
        congrArg String.mk hslower,
      show asciiLower (String.mk u.host.toList) = u.host from
        congrArg String.mk hhlower]
    rw [show (some (String.mk q.toList) : Option String) = u.query from by
      rw [hq]; exact rfl]
    exact rfl

/-- A plain character is none of the four special query characters. -/
theorem plainChar_ne {c : Char} (h : plainChar c = true) :
    c ≠ '&' ∧ c ≠ '=' ∧ c ≠ '+' ∧ c ≠ '%' := by
  refine ⟨?_, ?_, ?_, ?_⟩ <;>
    exact fun he => by subst he; exact absurd h (by decide)

/-- The decoder passes a character that is neither a plus nor a percent
sign straight through. -/
theorem decodeChars_cons_plain {c : Char} (hplus : c ≠ '+') (hpct : c ≠ '%')
    (cs : List Char) :
    decodeChars (c :: cs) = c :: decodeChars cs := by
  rw [decodeChars.eq_def]
  split
  next heq => exact absurd heq (by simp)
  next heq =>
    injection heq with h1 h2
    exact absurd h1 hplus
  next h1 h2 rest heq =>
    injection heq with ha hb
    exact absurd ha hpct
  next cs2 heq =>
    injection heq with ha hb
    exact absurd ha hpct
  next c2 cs2 heq =>
    injection heq with ha hb
    subst ha
    subst hb
    rfl

/-- The decoder fixes strings of plain characters. -/
theorem decodeChars_plain {l : List Char} (h : ∀ c ∈ l, plainChar c = true) :
    decodeChars l = l := by
  induction l with
  | nil => rfl
  | cons c cs ih =>
    have hc := plainChar_ne (h c (List.mem_cons_self c cs))
    rw [decodeChars_cons_plain hc.2.2.1 hc.2.2.2,
      ih fun x hx => h x (List.mem_cons_of_mem c hx)]

/-- Splitting a list without separators yields that list alone. -/
theorem splitOnChar_no_sep {sep : Char} {l : List Char}
    (h : ∀ c ∈ l, c ≠ sep) :
    splitOnChar sep l = [l] := by
  induction l with
  | nil => rfl
  | cons c cs ih =>
    rw [splitOnChar, if_neg (h c (List.mem_cons_self c cs)),
      ih fun x hx => h x (List.mem_cons_of_mem c hx)]

/-- Splitting a list whose head region has no separators peels that
region off at the first separator. -/
theorem splitOnChar_append {sep : Char} {a : List Char} (r : List Char)
    (h : ∀ c ∈ a, c ≠ sep) :
    splitOnChar sep (a ++ sep :: r) = a :: splitOnChar sep r := by
  induction a with
  | nil => simp [splitOnChar]
  | cons c cs ih =>
    rw [List.cons_append, splitOnChar,
      if_neg (h c (List.mem_cons_self c cs)),
      ih fun x hx => h x (List.mem_cons_of_mem c hx)]

/-- A piece whose key region has no equals sign splits at the first
equals sign. -/
theorem splitPairAtEq_append {k : List Char} (v : List Char)
    (h : ∀ c ∈ k, c ≠ '=') :
    splitPairAtEq (k ++ '=' :: v) = (k, v) := by
  induction k with
  | nil => simp [splitPairAtEq]
  | cons c cs ih =>
    rw [List.cons_append, splitPairAtEq,
      if_neg (h c (List.mem_cons_self c cs)),
      ih fun x hx => h x (List.mem_cons_of_mem c hx)]

/-- An allow-listed key is one of the three literal keys. -/
theorem allowedKey_cases {k : String} (h : allowedKey k = true) :
    k = "v" ∨ k = "t" ∨ k = "id" := by
  rcases Bool.or_eq_true_iff.mp h with h1 | h2
  · rcases Bool.or_eq_true_iff.mp h1 with ha | hb
    · exact Or.inl (by simpa [beq_iff_eq] using ha)
    · exact Or.inr (Or.inl (by simpa [beq_iff_eq] using hb))
  · exact Or.inr (Or.inr (by simpa [beq_iff_eq] using h2))

/-- The characters of an allow-listed key are plain. -/
theorem allowedKey_chars {k : String} (h : allowedKey k = true) :
    ∀ c ∈ k.toList, plainChar c = true := by
  rcases allowedKey_cases h with rfl | rfl | rfl <;> decide

/-- An allow-listed key is non-empty. -/
theorem allowedKey_ne_nil {k : String} (h : allowedKey k = true) :
    k.toList ≠ [] := by
  rcases allowedKey_cases h with rfl | rfl | rfl <;> decide

/-- The serialisation of a list with at least two pairs starts with the
first piece and an ampersand. -/
theorem serialize_cons_cons (kv kv2 : String × String)
    (rest2 : List (String × String)) :
    serializePairsChars (kv :: kv2 :: rest2) =
      (kv.1.toList ++ '=' :: kv.2.toList) ++
        '&' :: serializePairsChars (kv2 :: rest2) := by
  rw [serializePairsChars]
  simp

/-- No character of a well-formed piece is an ampersand. -/
theorem piece_no_amp {k v : String} (hk : allowedKey k = true)
    (hv : plainStr v = true) :
    ∀ c ∈ k.toList ++ '=' :: v.toList, c ≠ '&' := by
  intro c hc
  rcases List.mem_append.mp hc with hck | hcv
  · exact (plainChar_ne (allowedKey_chars hk c hck)).1
  · rcases List.mem_cons.mp hcv with rfl | hcv2
    · decide
    · exact (plainChar_ne (List.all_eq_true.mp hv c hcv2)).1

/-- Decoding inverts the serialisation of one well-formed piece. -/
theorem decode_piece {k v : String} (hk : allowedKey k = true)
    (hv : plainStr v = true) :
    (String.mk (decodeChars (splitPairAtEq (k.toList ++ '=' :: v.toList)).1),
     String.mk (decodeChars (splitPairAtEq (k.toList ++ '=' :: v.toList)).2)) =
      (k, v) := by
  rw [splitPairAtEq_append v.toList
    fun c hc => (plainChar_ne (allowedKey_chars hk c hc)).2.1]
  rw [decodeChars_plain (allowedKey_chars hk),
    decodeChars_plain (List.all_eq_true.mp hv)]
  rfl

/-- Parsing inverts the serialisation of a list of well-formed pairs. -/
theorem parse_serialize {es : List (String × String)}
    (hk : ∀ kv ∈ es, allowedKey kv.1 = true)
    (hv : ∀ kv ∈ es, plainStr kv.2 = true) :
    parseQueryPairs (String.mk (serializePairsChars es)) = es := by
  induction es with
  | nil => rfl
  | cons kv rest ih =>
    have hk0 := hk kv (List.mem_cons_self kv rest)
    have hv0 := hv kv (List.mem_cons_self kv rest)
    have hpiece_ne : (kv.1.toList ++ '=' :: kv.2.toList).isEmpty = false := by
      cases he : kv.1.toList with
      | nil => exact absurd he (allowedKey_ne_nil hk0)
      | cons a as => rfl
    cases rest with
    | nil =>
      show ((splitOnChar '&' (serializePairsChars [kv])).filter
          fun piece => !piece.isEmpty).map
          (fun piece =>
            (String.mk (decodeChars (splitPairAtEq piece).1),
             String.mk (decodeChars (splitPairAtEq piece).2))) = [kv]
      rw [show serializePairsChars [kv] = kv.1.toList ++ '=' :: kv.2.toList
          from rfl,
        splitOnChar_no_sep (piece_no_amp hk0 hv0), List.filter_cons]
      simp only [hpiece_ne, Bool.not_false, if_true, List.filter_nil,
        List.map_cons, List.map_nil]
      rw [decode_piece hk0 hv0]
    | cons kv2 rest2 =>
      show ((splitOnChar '&' (serializePairsChars (kv :: kv2 :: rest2))).filter
          fun piece => !piece.isEmpty).map
          (fun piece =>
            (String.mk (decodeChars (splitPairAtEq piece).1),
             String.mk (decodeChars (splitPairAtEq piece).2))) =
        kv :: kv2 :: rest2
      rw [serialize_cons_cons kv kv2 rest2,
        splitOnChar_append _ (piece_no_amp hk0 hv0), List.filter_cons]
      simp only [hpiece_ne, Bool.not_false, if_true, List.map_cons]
      rw [decode_piece hk0 hv0]
      exact congrArg₂ List.cons rfl
        (ih (fun x hx => hk x (List.mem_cons_of_mem kv hx))
          (fun x hx => hv x (List.mem_cons_of_mem kv hx)))

/-- Both conjuncts of a true boolean conjunction are true. -/
theorem bool_and_elim {a b : Bool} (h : (a && b) = true) :
    a = true ∧ b = true := by
  cases a
  · cases h
  · cases b
    · cases h
    · exact ⟨rfl, rfl⟩

/-- The query encoder keeps plain characters, ampersands and equals
signs. -/
theorem queryEncodeChar_keep {c : Char}
    (h : plainChar c = true ∨ c = '&' ∨ c = '=') :
    queryEncodeChar c = [c] := by
  rcases h with hp | rfl | rfl
  · have hq : queryOkChar c = true := (bool_and_elim hp).1
    have h1 := (bool_and_elim hq).1
    rcases bool_and_elim h1 with ⟨ha, hb⟩
    have hlo : 33 ≤ c.toNat := of_decide_eq_true ha
    have hhi : c.toNat ≤ 126 := of_decide_eq_true hb
    unfold queryEncodeChar
    rw [if_neg ?hcond]
    case hcond =>
      intro hcond
      simp only [Bool.or_eq_true, decide_eq_true_eq, beq_iff_eq,
        Nat.beq_eq_true_eq] at hcond
      rcases hcond with ((((((h1 | h2) | rfl) | rfl) | rfl) | rfl) | rfl) | rfl
      · omega
      · omega
      · exact absurd hp (by decide)
      · exact absurd hp (by decide)
      · exact absurd hp (by decide)
      · exact absurd hp (by decide)
      · exact absurd hp (by decide)
      · exact absurd hp (by decide)
  · rfl
  · rfl

/-- Flattening the per-character encoding of kept characters is the
identity. -/
theorem flatten_encode {l : List Char}
    (h : ∀ c ∈ l, plainChar c = true ∨ c = '&' ∨ c = '=') :
    List.flatten (l.map queryEncodeChar) = l := by
  induction l with
  | nil => rfl
  | cons c cs ih =>
    rw [List.map_cons, queryEncodeChar_keep (h c (List.mem_cons_self c cs))]
    simp [ih fun x hx => h x (List.mem_cons_of_mem c hx)]

/-- The query encoder fixes strings of kept characters. -/
theorem encodeQuery_keep {cs : List Char}
    (h : ∀ c ∈ cs, plainChar c = true ∨ c = '&' ∨ c = '=') :
    encodeQuery cs = String.mk cs :=
  congrArg String.mk (flatten_encode h)

/-- Every character of a well-formed piece is kept by the encoder. -/
theorem piece_chars {k v : String} (hk : allowedKey k = true)
    (hv : plainStr v = true) :
    ∀ c ∈ k.toList ++ '=' :: v.toList,
      plainChar c = true ∨ c = '&' ∨ c = '=' := by
  intro c hc
  rcases List.mem_append.mp hc with h1 | h2
  · exact Or.inl (allowedKey_chars hk c h1)
  · rcases List.mem_cons.mp h2 with rfl | h3
    · exact Or.inr (Or.inr rfl)
    · exact Or.inl (List.all_eq_true.mp hv c h3)

/-- Every character of the serialisation of well-formed pairs is kept by
the encoder. -/
theorem serialize_chars {es : List (String × String)}
    (hk : ∀ kv ∈ es, allowedKey kv.1 = true)
    (hv : ∀ kv ∈ es, plainStr kv.2 = true) :
    ∀ c ∈ serializePairsChars es,
      plainChar c = true ∨ c = '&' ∨ c = '=' := by
  induction es with
  | nil => intro c hc; cases hc
  | cons kv rest ih =>
    have hk0 := hk kv (List.mem_cons_self kv rest)
    have hv0 := hv kv (List.mem_cons_self kv rest)
    intro c hc
    cases rest with
    | nil => exact piece_chars hk0 hv0 c hc
    | cons kv2 rest2 =>
      rw [serialize_cons_cons kv kv2 rest2] at hc
      rcases List.mem_append.mp hc with h1 | h2
      · exact piece_chars hk0 hv0 c h1
      · rcases List.mem_cons.mp h2 with rfl | h3
        · exact Or.inr (Or.inl rfl)
        · exact ih (fun x hx => hk x (List.mem_cons_of_mem kv hx))
            (fun x hx => hv x (List.mem_cons_of_mem kv hx)) c h3

/-- Every character of the serialisation of well-formed pairs is an
accepted query character. -/
theorem serialize_queryOk {es : List (String × String)}
    (hk : ∀ kv ∈ es, allowedKey kv.1 = true)
    (hv : ∀ kv ∈ es, plainStr kv.2 = true) :
    ∀ c ∈ serializePairsChars es, queryOkChar c = true := by
  intro c hc
  rcases serialize_chars hk hv c hc with hp | rfl | rfl
  · exact (bool_and_elim hp).1
  · decide
  · decide

/-- Filtering twice with the same predicate filters once. -/
theorem filter_filter_self {α : Type} (p : α → Bool) (l : List α) :
    (l.filter p).filter p = l.filter p := by
  induction l with
  | nil => rfl
  | cons a as ih =>
    cases hh : p a with
    | false => simp [List.filter_cons, hh, ih]
    | true => simp [List.filter_cons, hh, ih]

/-- Appending the empty string is the identity. -/
theorem string_append_empty (s : String) : s ++ "" = s :=
  String.ext (by rw [String.data_append]; exact List.append_nil s.data)

/-- Dropping the query preserves canonicality. -/
theorem baseRec_canonical {u : UrlRec} (h : IsCanonical u) :
    IsCanonical (baseRec u) := by
  obtain ⟨a, b, c, d, e, f, g⟩ := h
  exact ⟨a, b, c, d, e, f, fun q hq => by cases hq⟩

/-- Installing a query of accepted characters preserves canonicality. -/
theorem withQuery_canonical {u : UrlRec} (h : IsCanonical u) {qs : String}
    (hqs : ∀ c ∈ qs.toList, queryOkChar c = true) :
    IsCanonical { baseRec u with query := some qs } := by
  obtain ⟨a, b, c, d, e, f, g⟩ := h
  refine ⟨a, b, c, d, e, f, fun q hq => ?_⟩
  cases hq
  exact hqs

/-- The rebuilt scheme-host-path string is the render of the query-free
record. -/
theorem rebuild_render (u : UrlRec) :
    u.scheme ++ "://" ++ u.host ++ u.path = (baseRec u).render := by
  unfold UrlRec.render baseRec
  exact (string_append_empty _).symm

/-- Reparsing the rebuilt scheme-host-path string of a canonical record
yields the query-free record. -/
theorem rebuild_parse {u : UrlRec} (h : IsCanonical u) :
    urlParse (u.scheme ++ "://" ++ u.host ++ u.path) = some (baseRec u) := by
  rw [rebuild_render]
  exact urlParse_render (baseRec_canonical h)

/-- A boolean that is not true is false. -/
theorem bool_eq_false_of_not {b : Bool} (h : ¬ b = true) : b = false := by
  cases b
  · rfl
  · exact absurd rfl h

/-- A list whose emptiness test is true is nil. -/
theorem eq_nil_of_isEmpty {α : Type} {l : List α} (h : l.isEmpty = true) :
    l = [] := by
  cases l
  · rfl
  · cases h

/-- The query of a query-free record. -/
theorem baseRec_query (u : UrlRec) : (baseRec u).query = none := rfl

/-- The query of a record with an installed query. -/
theorem withQuery_query (u : UrlRec) (qs : String) :
    ({ baseRec u with query := some qs }).query = some qs := rfl

/-- Evaluation of `normalize_url` on an accepted input whose rebuild
reparses to the query-free record. -/
theorem normalize_eval {s : String} {r : UrlRec} (hp : urlParse s = some r)
    (hr : urlParse (r.scheme ++ "://" ++ r.host ++ r.path) = some (baseRec r)) :
    normalize_url s =
      match r.query with
      | none => .ok (baseRec r).render
      | some q =>
        if (essentialOf q).isEmpty = true then .ok (baseRec r).render
        else .ok ({ baseRec r with
          query := some (encodeQuery (serializePairsChars (essentialOf q))) }).render := by
  unfold normalize_url
  simp only [hp]
  rw [hr]

/-- Members of the allow-listed sublist have allow-listed keys. -/
theorem mem_essential_allowed {q : String} {kv : String × String}
    (h : kv ∈ essentialOf q) : allowedKey kv.1 = true := by
  have h2 : kv ∈ (parseQueryPairs q).filter fun kv => allowedKey kv.1 := h
  simpa using List.of_mem_filter h2

/-- Members of the allow-listed sublist are query pairs. -/
theorem mem_essential_mem {q : String} {kv : String × String}
    (h : kv ∈ essentialOf q) : kv ∈ parseQueryPairs q := by
  have h2 : kv ∈ (parseQueryPairs q).filter fun kv => allowedKey kv.1 := h
  exact List.mem_of_mem_filter h2

/-- C9 amended: `normalize_url` is idempotent, removes every query key
outside the allow-list and keeps each allow-listed pair in order with its
decoded value unchanged, PROVIDED every allow-listed value decodes to
plain query text (no ampersand, equals sign, plus or percent sign, and
nothing the query serialiser escapes); the counterexample shows the
proviso is necessary.  Stated over every accepted input of the modelled
ASCII grammar: `normalize_url` maps the input to the rendered
`normOutput` of its parse, maps that output to itself, and the output's
query pairs are exactly the allow-listed pairs of the input. -/
theorem C9_normalize_idempotent_plain (u : String) (url : UrlRec)
    (hu : urlParse u = some url)
    (hq : ∀ kv ∈ parseQueryPairs (url.query.getD ""),
      allowedKey kv.1 = true → plainStr kv.2 = true) :
    normalize_url u = .ok (normOutput url) ∧
    normalize_url (normOutput url) = .ok (normOutput url) ∧
    parseQueryPairs ((outQuery (normOutput url)).getD "") =
      essentialOf (url.query.getD "") := by
  have hcan := urlParse_canonical hu
  have hreb := rebuild_parse hcan
  have heval1 := normalize_eval hu hreb
  cases hques : url.query with
  | none =>
    have hout : normOutput url = (baseRec url).render := by
      unfold normOutput
      rw [hques]
    have hparse_out : urlParse (normOutput url) = some (baseRec url) := by
      rw [hout]
      exact urlParse_render (baseRec_canonical hcan)
    have heval2 := normalize_eval hparse_out (rebuild_parse (baseRec_canonical hcan))
    refine ⟨?_, ?_, ?_⟩
    · rw [heval1]
      simp only [hques, hout]
    · rw [heval2]
      simp only [baseRec_query]
      rw [hout]
      exact rfl
    · unfold outQuery
      rw [hparse_out]
      rfl
  | some q =>
    have hqq : ∀ kv ∈ parseQueryPairs q,
        allowedKey kv.1 = true → plainStr kv.2 = true := by
      rw [hques] at hq
      exact hq
    have hk_es : ∀ kv ∈ essentialOf q, allowedKey kv.1 = true :=
      fun kv hkv => mem_essential_allowed hkv
    have hv_es : ∀ kv ∈ essentialOf q, plainStr kv.2 = true :=
      fun kv hkv => hqq kv (mem_essential_mem hkv) (mem_essential_allowed hkv)
    by_cases hemp : (essentialOf q).isEmpty = true
    · have hout : normOutput url = (baseRec url).render := by
        unfold normOutput
        rw [hques]
        simp only [hemp, if_true]
      have hparse_out : urlParse (normOutput url) = some (baseRec url) := by
        rw [hout]
        exact urlParse_render (baseRec_canonical hcan)
      have heval2 := normalize_eval hparse_out (rebuild_parse (baseRec_canonical hcan))
      refine ⟨?_, ?_, ?_⟩
      · rw [heval1]
        simp only [hques, hemp, if_true, hout]
      · rw [heval2]
        simp only [baseRec_query]
        rw [hout]
        exact rfl
      · unfold outQuery
        rw [hparse_out]
        show parseQueryPairs "" = essentialOf ((some q).getD "")
        rw [show essentialOf ((some q).getD "") = essentialOf q from rfl,
          eq_nil_of_isEmpty hemp]
        rfl
    · have hempf := bool_eq_false_of_not hemp
      have henc : encodeQuery (serializePairsChars (essentialOf q)) =
          String.mk (serializePairsChars (essentialOf q)) :=
        encodeQuery_keep (serialize_chars hk_es hv_es)
      have hcanq : IsCanonical { baseRec url with
          query := some (String.mk (serializePairsChars (essentialOf q))) } :=
        withQuery_canonical hcan (serialize_queryOk hk_es hv_es)
      have hout : normOutput url = ({ baseRec url with
          query := some (encodeQuery (serializePairsChars (essentialOf q))) }).render := by
        unfold normOutput
        rw [hques]
        simp only [hempf, Bool.false_eq_true, if_false]
      have hparse_out : urlParse (normOutput url) = some { baseRec url with
          query := some (String.mk (serializePairsChars (essentialOf q))) } := by
        rw [hout, henc]
        exact urlParse_render hcanq
      have hps : parseQueryPairs (String.mk (serializePairsChars (essentialOf q))) =
          essentialOf q :=
        parse_serialize hk_es hv_es
      have hes2 : essentialOf (String.mk (serializePairsChars (essentialOf q))) =
          essentialOf q := by
        show (parseQueryPairs
            (String.mk (serializePairsChars (essentialOf q)))).filter
            (fun kv => allowedKey kv.1) = essentialOf q
        rw [hps]
        exact filter_filter_self _ _
      have hemp2 : (essentialOf
          (String.mk (serializePairsChars (essentialOf q)))).isEmpty = false := by
        rw [hes2]
        exact hempf
      have heval2 := normalize_eval hparse_out (rebuild_parse hcanq)
      refine ⟨?_, ?_, ?_⟩
      · rw [heval1]
        simp only [hques, hempf, Bool.false_eq_true, if_false, hout]
      · rw [heval2]
        simp only [withQuery_query, hes2, hempf, Bool.false_eq_true, if_false]
        rw [hout]
        exact rfl
      · unfold outQuery
        rw [hparse_out]
        show parseQueryPairs (String.mk (serializePairsChars (essentialOf q))) =
          essentialOf ((some q).getD "")
        rw [hps]
        rfl

/-- The parsed record of the repository's own normalisation test URL. -/
def urlC9 : UrlRec :=
  ⟨"https", "www.youtube.com", "/watch", some "v=dQw4w9WgXcQ&feature=shared"⟩

/-- C9 witness: the amended theorem applied to the URL from the
repository's `test_normalize_url` test, whose single allow-listed value
is plain; the tracking parameter is stripped and a second normalisation
is the identity. -/
theorem C9_normalize_idempotent_plain_witness :
    normOutput urlC9 = "https://www.youtube.com/watch?v=dQw4w9WgXcQ" ∧
    normalize_url "https://www.youtube.com/watch?v=dQw4w9WgXcQ&feature=shared" =
      .ok (normOutput urlC9) ∧
    normalize_url (normOutput urlC9) = .ok (normOutput urlC9) ∧
    parseQueryPairs ((outQuery (normOutput urlC9)).getD "") =
      essentialOf (urlC9.query.getD "") :=
  ⟨by rfl,
   (C9_normalize_idempotent_plain
     "https://www.youtube.com/watch?v=dQw4w9WgXcQ&feature=shared" urlC9
     (by rfl) (by decide)).1,
   (C9_normalize_idempotent_plain
     "https://www.youtube.com/watch?v=dQw4w9WgXcQ&feature=shared" urlC9
     (by rfl) (by decide)).2.1,
   (C9_normalize_idempotent_plain
     "https://www.youtube.com/watch?v=dQw4w9WgXcQ&feature=shared" urlC9
     (by rfl) (by decide)).2.2⟩

/-- C9 counterexample: normalising a URL whose allow-listed value holds a
percent-encoded ampersand is not idempotent - the first pass decodes the
value to a-ampersand-b and re-serialises it raw, the second pass then
splits that text at the ampersand, drops the stray piece and truncates
the value of v from a-ampersand-b to a.  The query-pair evaluations show
the allow-listed value is not preserved either. -/
theorem C9_counterexample :
    normalize_url "https://youtube.com/watch?v=a%26b" =
      .ok "https://youtube.com/watch?v=a&b" ∧
    normalize_url "https://youtube.com/watch?v=a&b" =
      .ok "https://youtube.com/watch?v=a" ∧
    ("https://youtube.com/watch?v=a&b" : String) ≠
      "https://youtube.com/watch?v=a" ∧
    parseQueryPairs "v=a%26b" = [("v", "a&b")] ∧
    parseQueryPairs "v=a&b" = [("v", "a"), ("b", "")] := by
  exact ⟨by rfl, by rfl, by decide, by rfl, by rfl⟩

end VideoDl
